import Mathlib

/-!
Shallow embedding of the videofront transcoding pipeline core
(`src/pipeline/tasks.py`, `src/pipeline/models.py`, `src/api/v1/views.py`),
together with theorems settling the specification claims about it.

Database rows are modelled as Lean structures, the database as lists of rows,
the external backend adapter as a record of functions (an oracle), and the
side effects of one task run as an explicit event trace.  Python exceptions
are modelled by an inductive type carried in `Except`.
-/

namespace Videofront

/-- Python exceptions relevant to the pipeline (`pipeline/exceptions.py` plus
builtins).  Each carries its `args` tuple, modelled as a list of strings. -/
inductive PyExc where
  | videoNotUploaded (args : List String)
  | lockUnavailable (args : List String)
  | transcodingFailed (args : List String)
  | subtitleInvalid (args : List String)
  | unicodeDecodeError (args : List String)
  | doesNotExist (args : List String)
  | generic (args : List String)
deriving DecidableEq

/-- The `args` tuple of an exception (`e.args` in Python). -/
def PyExc.args : PyExc → List String
  | .videoNotUploaded a | .lockUnavailable a | .transcodingFailed a
  | .subtitleInvalid a | .unicodeDecodeError a | .doesNotExist a | .generic a => a

/-- `ProcessingState` statuses (`models.ProcessingState.STATUSES`). -/
inductive Status where
  | pending
  | processing
  | failed
  | success
  | restart
deriving DecidableEq

/-- Observable side effects of one task run: celery dispatches, saves of the
processing state, format-row manipulation and backend calls. -/
inductive Event where
  | sendTask (name : String) (arg : String)
  | saveState (status : Status) (progress : ℚ) (message : String)
  | deleteFormats (videoId : String)
  | createFormat (videoId : String) (name : String) (bitrate : ℚ)
  | backendDeleteVideo (videoId : String)
  | backendUploadSubtitle (videoId : String) (subtitleId : String) (lang : String)
      (text : List Nat)
deriving DecidableEq

/-- A `VideoUploadUrl` row (`models.VideoUploadUrl`). -/
structure UploadUrl where
  public_video_id : String
  filename : String
  owner : Nat
  playlist : Option Nat
  was_used : Bool
  last_checked : Option Nat
  expires_at : Int
deriving DecidableEq

/-- A `Video` row (`models.Video`); only the claim-relevant columns. -/
structure Video where
  public_id : String
  title : String
  owner : Nat
deriving DecidableEq

/-- A `ProcessingState` row (`models.ProcessingState`), keyed by the public id
of its 1:1 video. -/
structure PSRow where
  videoId : String
  status : Status
  progress : ℚ
  message : String
  started_at : Nat
deriving DecidableEq

/-- A `VideoFormat` row (`models.VideoFormat`); only the claim-relevant columns. -/
structure FormatRow where
  videoId : String
  name : String
  bitrate : ℚ
deriving DecidableEq

/-- The relational store, as lists of rows.  `playlistLinks` models the
`Video.playlists` many-to-many table and `subtitles` the `Subtitle` rows
`(public_id, video public id, language)`. -/
structure DB where
  uploadUrls : List UploadUrl
  videos : List Video
  procStates : List PSRow
  formats : List FormatRow
  playlistLinks : List (String × Nat)
  subtitles : List (String × String × String)
deriving DecidableEq

/-- `VideoUploadUrl.objects.get(public_video_id=id)` (first matching row). -/
def findUrl (db : DB) (id : String) : Option UploadUrl :=
  db.uploadUrls.find? (fun u => u.public_video_id == id)

/-- Saving an upload-url object: replace the row with the same public id. -/
def saveUrl (db : DB) (u : UploadUrl) : DB :=
  { db with uploadUrls :=
      db.uploadUrls.map (fun x => if x.public_video_id == u.public_video_id then u else x) }

/-- `Video.objects.get(public_id=id)`. -/
def findVideo (db : DB) (id : String) : Option Video :=
  db.videos.find? (fun v => v.public_id == id)

/-- Number of `Video` rows with the given public id. -/
def videoCount (db : DB) (id : String) : Nat :=
  (db.videos.filter (fun v => v.public_id == id)).length

/-- The processing-state row of the video with the given public id. -/
def findProc (db : DB) (id : String) : Option PSRow :=
  db.procStates.find? (fun r => r.videoId == id)

/-- Saving the in-memory processing-state object back to its row. -/
def saveProc (db : DB) (r : PSRow) : DB :=
  { db with procStates :=
      db.procStates.map (fun x => if x.videoId == r.videoId then r else x) }

/-- `ProcessingState.objects.filter(video__public_id=id).update(status=failed,
message=m)` — the bulk update in `transcode_video`'s exception handler. -/
def failProc (db : DB) (id : String) (m : String) : DB :=
  { db with procStates :=
      db.procStates.map (fun x =>
        if x.videoId == id then { x with status := Status.failed, message := m } else x) }

/-- `VideoFormat.objects.filter(video=video).delete()`. -/
def deleteFormatsDb (db : DB) (id : String) : DB :=
  { db with formats := db.formats.filter (fun f => !(f.videoId == id)) }

/-- `VideoFormat.objects.create(video=video, name=n, bitrate=b)`. -/
def addFormat (db : DB) (id : String) (n : String) (b : ℚ) : DB :=
  { db with formats := db.formats ++ [⟨id, n, b⟩] }

/-- The `VideoFormat` rows of one video. -/
def formatsOf (db : DB) (id : String) : List FormatRow :=
  db.formats.filter (fun f => f.videoId == id)

/-- `video.title = t; video.save()`. -/
def setTitle (db : DB) (id : String) (t : String) : DB :=
  { db with videos := db.videos.map (fun v => if v.public_id == id then { v with title := t } else v) }

/-- `video.playlists.add(playlist)` (idempotent many-to-many add). -/
def addPlaylistLink (db : DB) (id : String) (pl : Nat) : DB :=
  if (id, pl) ∈ db.playlistLinks then db
  else { db with playlistLinks := db.playlistLinks ++ [(id, pl)] }

/-- A fresh `ProcessingState` row with the model's column defaults, created by
the `post_save` signal `create_video_processing_state` when a video is created. -/
def defaultPS (id : String) : PSRow :=
  ⟨id, Status.pending, 0, "", 0⟩

/-- `Video.objects.get_or_create(public_id=id, owner=owner)`; the created video
has the blank default title, and the `post_save` signal adds its
`ProcessingState` row.  Creating a second row with an existing public id would
violate the unique constraint, modelled as an `IntegrityError`. -/
def getOrCreateVideo (db : DB) (id : String) (owner : Nat) :
    Except PyExc (DB × Bool) :=
  match db.videos.find? (fun v => v.public_id == id && v.owner == owner) with
  | some _ => .ok (db, false)
  | none =>
    if db.videos.any (fun v => v.public_id == id) then
      .error (.generic ["IntegrityError"])
    else
      .ok ({ db with
              videos := db.videos ++ [⟨id, "", owner⟩],
              procStates := db.procStates ++ [defaultPS id] }, true)

/-- Environment of the upload monitor: the backend adapter's `check_video`
(`true` = uploaded, `false` = raises `VideoNotUploaded`) and the clock `now()`. -/
structure MonEnv where
  checkVideo : String → Bool
  time : Nat

/-- `_monitor_upload(public_video_id)` (`pipeline/tasks.py`, lines 115-144):
look up the upload url; ask the backend whether the upload happened, marking
`was_used` on success; in all cases refresh `last_checked` and save; on the
not-uploaded signal return; otherwise get-or-create the `Video`, set its title
to the original filename, attach the playlist if any, and dispatch the
`transcode_video` task exactly when this call created the video. -/
def monitorUploadCheck (env : MonEnv) (db : DB) (id : String) :
    Except PyExc (DB × List Event) :=
  match findUrl db id with
  | none => .error (.doesNotExist ["VideoUploadUrl matching query does not exist."])
  | some u =>
    let uploaded := env.checkVideo id
    let u1 := if uploaded then { u with was_used := true } else u
    let newChecked : Nat :=
      match u1.last_checked with
      | none => env.time
      | some t => max t env.time
    let u2 := { u1 with last_checked := some newChecked }
    let db1 := saveUrl db u2
    if uploaded then
      match getOrCreateVideo db1 id u.owner with
      | .error e => .error e
      | .ok (db2, created) =>
        let db3 := setTitle db2 id u.filename
        let db4 := match u.playlist with
          | none => db3
          | some pl => addPlaylistLink db3 id pl
        .ok (db4, if created then [Event.sendTask "transcode_video" id] else [])
    else
      .ok (db1, [])

/-- `k` successive runs of the per-url check for the same id (the sequential
model of `k` concurrent checks whose `get_or_create` steps are atomic),
concatenating their event traces. -/
def monitorUploadIter (env : MonEnv) (db : DB) (id : String) : Nat → Except PyExc (DB × List Event)
  | 0 => .ok (db, [])
  | k + 1 =>
    match monitorUploadCheck env db id with
    | .error e => .error e
    | .ok (db1, evs1) =>
      match monitorUploadIter env db1 id k with
      | .error e => .error e
      | .ok (db2, evs2) => .ok (db2, evs1 ++ evs2)

/-- Continuation byte of a UTF-8 sequence (`0x80..0xBF`). -/
def isCont (b : Nat) : Bool := 0x80 ≤ b && b ≤ 0xBF

/-- Admissible first continuation byte of a three-byte UTF-8 sequence
(excludes overlong encodings and surrogates, as Python's strict decoder does). -/
def cont3Ok (b c1 : Nat) : Bool :=
  if b == 0xE0 then 0xA0 ≤ c1 && c1 ≤ 0xBF
  else if b == 0xED then 0x80 ≤ c1 && c1 ≤ 0x9F
  else isCont c1

/-- Admissible first continuation byte of a four-byte UTF-8 sequence. -/
def cont4Ok (b c1 : Nat) : Bool :=
  if b == 0xF0 then 0x90 ≤ c1 && c1 ≤ 0xBF
  else if b == 0xF4 then 0x80 ≤ c1 && c1 ≤ 0x8F
  else isCont c1

/-- `bytes.decode('utf-8')`: strict UTF-8 decoding of a byte list to a list of
code points, `none` when the input is not valid UTF-8 (Python raises
`UnicodeDecodeError` there). -/
def utf8Decode : List Nat → Option (List Nat)
  | [] => some []
  | b :: rest =>
    if b ≤ 0x7F then (utf8Decode rest).map (b :: ·)
    else if 0xC2 ≤ b && b ≤ 0xDF then
      match rest with
      | c1 :: rest2 =>
        if isCont c1 then
          (utf8Decode rest2).map (((b - 0xC0) * 0x40 + (c1 - 0x80)) :: ·)
        else none
      | [] => none
    else if 0xE0 ≤ b && b ≤ 0xEF then
      match rest with
      | c1 :: c2 :: rest2 =>
        if cont3Ok b c1 && isCont c2 then
          (utf8Decode rest2).map
            (((b - 0xE0) * 0x1000 + (c1 - 0x80) * 0x40 + (c2 - 0x80)) :: ·)
        else none
      | _ => none
    else if 0xF0 ≤ b && b ≤ 0xF4 then
      match rest with
      | c1 :: c2 :: c3 :: rest2 =>
        if cont4Ok b c1 && isCont c2 && isCont c3 then
          (utf8Decode rest2).map
            (((b - 0xF0) * 0x40000 + (c1 - 0x80) * 0x1000 + (c2 - 0x80) * 0x40 + (c3 - 0x80)) :: ·)
        else none
      | _ => none
    else none

/-- The character set of `content.strip("﻿\n\r")`: byte-order mark,
line feed, carriage return (as code points). -/
def stripSet : List Nat := [0xFEFF, 0x0A, 0x0D]

/-- Python's `str.strip(chars)`: remove from both ends every character that
belongs to the set. -/
def pyStrip (s : List Nat) : List Nat :=
  ((s.dropWhile (· ∈ stripSet)).reverse.dropWhile (· ∈ stripSet)).reverse

/-- Subtitle source formats distinguishable by `pycaption.detect_format`. -/
inductive SubFmt where
  | webVTT
  | srt
  | dfxp
  | sami
deriving DecidableEq

/-- Environment of the subtitle ingestor: `pycaption.detect_format` (on the
stripped code-point text) and the reader-to-`WebVTTWriter` conversion, both
external library code treated as oracles. -/
structure SubEnv where
  detectFormat : List Nat → Option SubFmt
  convert : SubFmt → List Nat → List Nat

/-- `upload_subtitle(public_video_id, subtitle_public_id, language_code,
content)` (`pipeline/tasks.py`, lines 214-235): decode the payload as UTF-8
(an invalid payload raises `UnicodeDecodeError`), strip the
`"﻿\n\r"` character set from both ends, detect the subtitle format
(raising `SubtitleInvalid` when undetectable), convert to WebVTT unless the
input already is WebVTT, and hand the text to the backend adapter. -/
def upload_subtitle (env : SubEnv) (videoId subtitleId lang : String)
    (content : List Nat) : Except PyExc (List Event) :=
  match utf8Decode content with
  | none => .error (.unicodeDecodeError ["invalid utf-8"])
  | some text =>
    let text1 := pyStrip text
    match env.detectFormat text1 with
    | none => .error (.subtitleInvalid ["Could not detect subtitle format"])
    | some fmt =>
      let text2 := if fmt ≠ SubFmt.webVTT then env.convert fmt text1 else text1
      .ok [Event.backendUploadSubtitle videoId subtitleId lang text2]

/-- Outcome of the subtitle-upload API endpoint. -/
inductive ApiResult where
  | created (db : DB) (evs : List Event)
  | badRequest (msg : String) (db : DB)
  | raised (e : PyExc) (db : DB)
deriving DecidableEq

/-- `VideoViewSet.subtitles` (`api/v1/views.py`, lines 298-314), reduced to the
claim-relevant core: inside an atomic transaction create the `Subtitle` row
and call `tasks.upload_subtitle`; catch only `SubtitleInvalid` (rolling back
the row and answering 400); every other exception rolls back and propagates
uncaught. -/
def subtitlesEndpoint (env : SubEnv) (db : DB) (videoId subtitleId lang : String)
    (content : List Nat) : ApiResult :=
  match upload_subtitle env videoId subtitleId lang content with
  | .ok evs =>
    .created { db with subtitles := db.subtitles ++ [(subtitleId, videoId, lang)] } evs
  | .error (.subtitleInvalid args) => .badRequest (args.headD "") db
  | .error e => .raised e db

/-- Environment of the transcoding driver: the backend adapter's job
submission, per-pass/per-handle progress reports, realized format list and
asset deletion, plus the clock.  `checkProgress` takes the poll-pass index
first so that the oracle can vary over time; its second argument is the job
handle returned by `startTranscoding`. -/
structure TEnv where
  startTranscoding : String → Except PyExc (List Nat)
  checkProgress : Nat → Nat → Except PyExc (ℚ × Bool)
  iterFormats : String → Except PyExc (List (String × ℚ))
  deleteVideo : String → Except PyExc Unit
  time : Nat

/-- In-memory loop state of `_transcode_video`: per-job last-known progress
(`jobs_progress`), per-job resolution flag (membership of
`success_job_indexes ∪ error_job_indexes`), and the accumulated failure
messages (`errors`). -/
structure PollSt where
  progress : List ℚ
  resolved : List Bool
  errors : List String
deriving DecidableEq

/-- One job's treatment inside a poll pass: skip it if already resolved;
otherwise query the backend, store the reported progress and mark success when
finished, or — on `TranscodingFailed` — mark failure and record
`e.args[0] if e.args else ""`.  Any other exception propagates. -/
def pollJob (env : TEnv) (jobs : List Nat) (p j : Nat) (st : PollSt) :
    Except PyExc PollSt :=
  if st.resolved.getD j false then .ok st
  else
    match env.checkProgress p (jobs.getD j 0) with
    | .ok (q, fin) =>
      .ok { st with
              progress := st.progress.set j q,
              resolved := if fin then st.resolved.set j true else st.resolved }
    | .error (.transcodingFailed args) =>
      .ok { st with
              resolved := st.resolved.set j true,
              errors := st.errors ++ [args.headD ""] }
    | .error e => .error e

/-- One full pass of the poll loop over the job list, in index order. -/
def pollPass (env : TEnv) (jobs : List Nat) (p : Nat) (st : PollSt) :
    Except PyExc PollSt :=
  (List.range jobs.length).foldlM (fun s j => pollJob env jobs p j s) st

/-- The `while` loop of `_transcode_video` (lines 182-196), with explicit
`fuel` bounding the number of passes (the source busy-polls without bound):
while some job is unresolved, run a full pass, then persist
`{status=processing, progress=sum(jobs_progress)/len(jobs)}`.  Returns the
updated store, the event trace, the in-memory processing state and the loop
outcome: `none` when the fuel ran out with jobs still unresolved, otherwise
the final poll state or a propagated exception. -/
def transLoop (env : TEnv) (jobs : List Nat) (id : String) :
    Nat → Nat → PollSt → DB → List Event → PSRow →
    DB × List Event × PSRow × Option (Except PyExc PollSt)
  | fuel, p, st, db, evs, ps =>
    if jobs.length ≤ st.resolved.count true then (db, evs, ps, some (.ok st))
    else
      match fuel with
      | 0 => (db, evs, ps, none)
      | fuel' + 1 =>
        match pollPass env jobs p st with
        | .error e => (db, evs, ps, some (.error e))
        | .ok st' =>
          let ps' := { ps with
                        progress := st'.progress.sum / (jobs.length : ℚ),
                        status := Status.processing }
          transLoop env jobs id fuel' (p + 1) st' (saveProc db ps')
            (evs ++ [Event.saveState Status.processing ps'.progress ps'.message]) ps'

instance {ε α : Type} [DecidableEq ε] [DecidableEq α] : DecidableEq (Except ε α)
  | .ok a, .ok b =>
    decidable_of_iff (a = b) ⟨fun h => by rw [h], fun h => by cases h; rfl⟩
  | .error a, .error b =>
    decidable_of_iff (a = b) ⟨fun h => by rw [h], fun h => by cases h; rfl⟩
  | .ok _, .error _ => .isFalse (fun h => by cases h)
  | .error _, .ok _ => .isFalse (fun h => by cases h)

/-- Result of one driver run: final store, event trace, and outcome
(`none` = still polling when the fuel ran out, otherwise normal return or a
raised exception). -/
structure TIResult where
  db : DB
  evs : List Event
  outcome : Option (Except PyExc Unit)
deriving DecidableEq

/-- `_transcode_video(public_video_id)` (`pipeline/tasks.py`, lines 167-212):
reset the processing state to `{progress=0, status=pending, started_at=now}`;
start transcoding; poll all jobs to resolution while persisting aggregate
progress; then set `message` to the newline-join of the failure messages,
delete all existing `VideoFormat` rows, and either — if any job failed — save
`status=failed` and delete the backend video assets, or — if none failed —
create one `VideoFormat` row per backend-reported format and save
`status=success`. -/
def transcodeInner (env : TEnv) (fuel : Nat) (db : DB) (id : String) : TIResult :=
  match findVideo db id with
  | none => ⟨db, [], some (.error (.doesNotExist ["Video matching query does not exist."]))⟩
  | some _ =>
    match findProc db id with
    | none => ⟨db, [], some (.error (.doesNotExist ["Video has no processing_state."]))⟩
    | some ps0 =>
      let ps1 := { ps0 with progress := 0, status := Status.pending, started_at := env.time }
      let db1 := saveProc db ps1
      let evs1 := [Event.saveState Status.pending 0 ps1.message]
      match env.startTranscoding id with
      | .error e => ⟨db1, evs1, some (.error e)⟩
      | .ok jobs =>
        let st0 : PollSt :=
          ⟨List.replicate jobs.length 0, List.replicate jobs.length false, []⟩
        match transLoop env jobs id fuel 0 st0 db1 evs1 ps1 with
        | (db2, evs2, _, none) => ⟨db2, evs2, none⟩
        | (db2, evs2, _, some (.error e)) => ⟨db2, evs2, some (.error e)⟩
        | (db2, evs2, ps2, some (.ok st)) =>
          let ps3 := { ps2 with message := String.intercalate "\n" st.errors }
          let db3 := deleteFormatsDb db2 id
          let evs3 := evs2 ++ [Event.deleteFormats id]
          if st.errors.isEmpty then
            match env.iterFormats id with
            | .error e => ⟨db3, evs3, some (.error e)⟩
            | .ok fmts =>
              let db4 := fmts.foldl (fun d f => addFormat d id f.1 f.2) db3
              let evs4 := evs3 ++ fmts.map (fun f => Event.createFormat id f.1 f.2)
              let ps4 := { ps3 with status := Status.success }
              ⟨saveProc db4 ps4,
               evs4 ++ [Event.saveState Status.success ps4.progress ps4.message],
               some (.ok ())⟩
          else
            let ps4 := { ps3 with status := Status.failed }
            let db4 := saveProc db3 ps4
            let evs4 := evs3 ++ [Event.saveState Status.failed ps4.progress ps4.message,
                                 Event.backendDeleteVideo id]
            match env.deleteVideo id with
            | .error e => ⟨db4, evs4, some (.error e)⟩
            | .ok _ => ⟨db4, evs4, some (.ok ())⟩

/-- Whole-system state seen by the celery task: the store plus the set of
cache locks currently held. -/
structure Sys where
  db : DB
  locks : List String
deriving DecidableEq

/-- Result of the `transcode_video` task. -/
structure TVResult where
  sys : Sys
  evs : List Event
  outcome : Option (Except PyExc Unit)
deriving DecidableEq

/-- The name of the transcode lock for one public video id
(`'TRANSCODE_VIDEO:' + public_video_id`). -/
def transcodeLockName (id : String) : String := "TRANSCODE_VIDEO:" ++ id

/-- `transcode_video(public_video_id)` (`pipeline/tasks.py`, lines 146-165):
try to acquire the per-id lock, returning immediately when it is unavailable;
run `_transcode_video`; on any exception bulk-update the video's
`ProcessingState` to `{status=failed, message="\n".join(e.args)}` and re-raise;
always release the lock on the way out (the fuel-exhausted `none` outcome
models a run still inside `_transcode_video`, so the lock is still held). -/
def transcode_video (env : TEnv) (fuel : Nat) (sys : Sys) (id : String) : TVResult :=
  if transcodeLockName id ∈ sys.locks then ⟨sys, [], some (.ok ())⟩
  else
    let locks1 := transcodeLockName id :: sys.locks
    match transcodeInner env fuel sys.db id with
    | ⟨db', evs, none⟩ => ⟨⟨db', locks1⟩, evs, none⟩
    | ⟨db', evs, some (.ok _)⟩ => ⟨⟨db', locks1.erase (transcodeLockName id)⟩, evs, some (.ok ())⟩
    | ⟨db', evs, some (.error e)⟩ =>
      ⟨⟨failProc db' id (String.intercalate "\n" e.args),
        locks1.erase (transcodeLockName id)⟩, evs, some (.error e)⟩

/-- `delete_video(public_video_id)` (`pipeline/tasks.py`, lines 237-239):
only a backend-asset deletion; it touches no database row. -/
def delete_video_task (db : DB) (id : String) : DB × List Event :=
  (db, [Event.backendDeleteVideo id])

/-- The upload-url row after a successful per-url check: `was_used` set and
`last_checked` refreshed. -/
def monitorResultUrl (env : MonEnv) (u : UploadUrl) : UploadUrl :=
  { u with was_used := true,
           last_checked := some (match u.last_checked with
                                 | none => env.time
                                 | some t => max t env.time) }

/-- The store after the first successful per-url check for `u` on a store with
no video row for `u`'s public id yet: the url row is updated, one video row
(titled with the original filename) and its processing state are created, and
the playlist link is attached if requested. -/
def monitorResultDb (env : MonEnv) (db : DB) (u : UploadUrl) : DB :=
  { uploadUrls := db.uploadUrls.map (fun x =>
      if x.public_video_id == u.public_video_id then monitorResultUrl env u else x),
    videos := db.videos ++ [⟨u.public_video_id, u.filename, u.owner⟩],
    procStates := db.procStates ++ [defaultPS u.public_video_id],
    formats := db.formats,
    playlistLinks := match u.playlist with
      | none => db.playlistLinks
      | some pl =>
        if (u.public_video_id, pl) ∈ db.playlistLinks then db.playlistLinks
        else db.playlistLinks ++ [(u.public_video_id, pl)],
    subtitles := db.subtitles }

/-- Resolution kind of one job in the reference (per-job) model of the poll
loop: still polled, resolved successful, or resolved failed. -/
inductive JStat where
  | running
  | done
  | failedJob
deriving DecidableEq

/-- Whether a reference job state is still being polled. -/
def isRunning : JStat → Bool
  | .running => true
  | _ => false

/-- Reference single-job transition for poll pass `p`: a resolved job is left
alone; an unresolved one takes the backend's reported value (resolving when
the report says finished) or keeps its value and resolves on failure. -/
def jobStep (env : TEnv) (jobs : List Nat) (p j : Nat) : ℚ × JStat → ℚ × JStat
  | (v, s) =>
    if isRunning s then
      match env.checkProgress p (jobs.getD j 0) with
      | .ok (q, fin) => (q, if fin then JStat.done else JStat.running)
      | .error _ => (v, JStat.failedJob)
    else (v, s)

/-- Job `j`'s (last-known progress, resolution kind) after poll passes
`0 .. p-1`; `(0, running)` before any pass. -/
def jobStateB (env : TEnv) (jobs : List Nat) (j : Nat) : Nat → ℚ × JStat
  | 0 => (0, JStat.running)
  | p + 1 => jobStep env jobs p j (jobStateB env jobs j p)

/-- Whether job `j` has resolved (either way) after passes `0 .. p-1`. -/
def resolvedB (env : TEnv) (jobs : List Nat) (j p : Nat) : Bool :=
  !(isRunning (jobStateB env jobs j p).2)

/-- The reference job transition at the booleans the loop actually stores:
`(last-known progress, resolved flag)`. -/
def stepB (env : TEnv) (jobs : List Nat) (p j : Nat) (v : ℚ) (r : Bool) : ℚ × Bool :=
  if r then (v, r)
  else
    match env.checkProgress p (jobs.getD j 0) with
    | .ok (q, fin) => (q, fin)
    | .error _ => (v, true)

/-- The aggregate the driver persists after `p` passes: arithmetic mean of the
jobs' last-known progress values in the reference model. -/
def codeMeanB (env : TEnv) (jobs : List Nat) (p : Nat) : ℚ :=
  ((List.range jobs.length).map (fun j => (jobStateB env jobs j p).1)).sum
    / (jobs.length : ℚ)

/-- Failure messages first detected during pass `p`, in job-index order:
`e.args[0] if e.args else ""` of each newly failing job. -/
def passFailsB (env : TEnv) (jobs : List Nat) (p : Nat) : List String :=
  (List.range jobs.length).filterMap (fun j =>
    if resolvedB env jobs j p then none
    else
      match env.checkProgress p (jobs.getD j 0) with
      | .error e => some (e.args.headD "")
      | .ok _ => none)

/-- All failure messages detected during passes `0 .. p-1`, in detection
order (pass-major, then job index). -/
def errsB (env : TEnv) (jobs : List Nat) : Nat → List String
  | 0 => []
  | p + 1 => errsB env jobs p ++ passFailsB env jobs p

/-- Modelled from the spec: the aggregate progress as claim C5 words it, where
"a job that resolved to success contributes progress=100" and every other job
counts at its last observed value (0 before any observation), after `p+1`
passes. -/
def specMeanSuccess100 (env : TEnv) (jobs : List Nat) (p : Nat) : ℚ :=
  ((List.range jobs.length).map (fun j =>
      if (jobStateB env jobs j (p + 1)).2 = JStat.done then (100 : ℚ)
      else (jobStateB env jobs j (p + 1)).1)).sum / (jobs.length : ℚ)

/-- The `(status, progress)` pairs of the `ProcessingState` saves of a trace,
in order. -/
def savesOf (evs : List Event) : List (Status × ℚ) :=
  evs.filterMap (fun e =>
    match e with
    | .saveState s q _ => some (s, q)
    | _ => none)

/-- Every persisted progress value of a trace, in order. -/
def persistedProgress (evs : List Event) : List ℚ :=
  evs.filterMap (fun e =>
    match e with
    | .saveState _ q _ => some q
    | _ => none)

/-- The persisted progress snapshots written by the poll loop (one per full
pass; they are exactly the saves with status `processing`). -/
def procSnaps (evs : List Event) : List ℚ :=
  evs.filterMap (fun e =>
    match e with
    | .saveState Status.processing q _ => some q
    | _ => none)

/-- A progress report the driver's `try/except TranscodingFailed` handles:
either a value or a `TranscodingFailed` exception.  Any other exception aborts
the whole attempt instead of resolving one job. -/
def expectedCP : Except PyExc (ℚ × Bool) → Prop
  | .ok _ => True
  | .error (.transcodingFailed _) => True
  | .error _ => False

/-- The backend raises nothing but `TranscodingFailed` from `check_progress`
on the handles of this job list. -/
def noUnexpected (env : TEnv) (jobs : List Nat) : Prop :=
  ∀ p j, j < jobs.length → expectedCP (env.checkProgress p (jobs.getD j 0))

/-- The per-pass `{status=processing, progress=mean}` saves of a `k`-pass run,
expressed in the reference model. -/
def loopSavesB (env : TEnv) (jobs : List Nat) (msg : String) (k : Nat) : List Event :=
  (List.range k).map (fun i => Event.saveState Status.processing (codeMeanB env jobs (i + 1)) msg)

/-- The progress value the driver's final save carries after a `k`-pass loop. -/
def lastProgB (env : TEnv) (jobs : List Nat) (k : Nat) : ℚ :=
  if k = 0 then 0 else codeMeanB env jobs k

/-- Claim C5 as stated, instantiated at one input: every per-pass persisted
snapshot equals the mean in which a success-resolved job contributes 100. -/
def claimC5At (env : TEnv) (fuel : Nat) (db : DB) (id : String) (jobs : List Nat) : Prop :=
  env.startTranscoding id = .ok jobs →
  ∀ p q, (procSnaps (transcodeInner env fuel db id).evs)[p]? = some q →
    q = specMeanSuccess100 env jobs p

/-- Claim C6 as stated, instantiated at one input: if every reported progress
value is in [0,100] then every persisted progress value is in [0,100] and the
persisted sequence is monotonically non-decreasing. -/
def claimC6At (env : TEnv) (fuel : Nat) (db : DB) (id : String) : Prop :=
  (∀ p h q f, env.checkProgress p h = .ok (q, f) → 0 ≤ q ∧ q ≤ 100) →
  (∀ q ∈ persistedProgress (transcodeInner env fuel db id).evs, 0 ≤ q ∧ q ≤ 100) ∧
    List.Chain' (· ≤ ·) (persistedProgress (transcodeInner env fuel db id).evs)

/-- Concrete store with one video `"v1"` and its processing state, used by
witnesses and counterexamples. -/
def dbOne : DB := ⟨[], [⟨"v1", "t", 7⟩], [⟨"v1", Status.pending, 0, "", 0⟩], [], [], []⟩

/-- Backend for which the single job reports completion at progress 50 on the
first pass (counterexample input for claim C5). -/
def envFinishAt50 : TEnv :=
  ⟨fun _ => .ok [0], fun _ _ => .ok (50, true), fun _ => .ok [], fun _ => .ok (), 5⟩

/-- Backend for which the single job reports progress 100 unfinished, then 0
finished (counterexample input for claim C6's monotonicity). -/
def envDecreasing : TEnv :=
  ⟨fun _ => .ok [0],
   fun p _ => if p = 0 then .ok (100, false) else .ok (0, true),
   fun _ => .ok [], fun _ => .ok (), 5⟩

/-- Backend whose single job succeeds immediately at 100 with one realized
format (witness input for the transcoding claims). -/
def envAllOk : TEnv :=
  ⟨fun _ => .ok [0], fun _ _ => .ok (100, true), fun _ => .ok [("HD", 5400)],
   fun _ => .ok (), 5⟩

/-- Backend whose single job fails with message `"codec error"` on the first
pass (witness input for the failure-path claims). -/
def envOneFail : TEnv :=
  ⟨fun _ => .ok [0], fun _ _ => .error (.transcodingFailed ["codec error"]),
   fun _ => .ok [], fun _ => .ok (), 5⟩

/-- Backend whose `start_transcoding` raises an unexpected exception (witness
input for claim C3). -/
def envBoom : TEnv :=
  ⟨fun _ => .error (.generic ["boom", "bang"]), fun _ _ => .ok (0, false),
   fun _ => .ok [], fun _ => .ok (), 5⟩

/-- Concrete unused upload url for `"v1"` (witness input for the monitor
claims). -/
def urlOne : UploadUrl := ⟨"v1", "movie.mp4", 7, some 3, false, none, 1000⟩

/-- Concrete store holding only `urlOne`. -/
def dbUrl : DB := ⟨[urlOne], [], [], [], [], []⟩

/-- Monitor environment that reports the upload as completed. -/
def envUploaded : MonEnv := ⟨fun _ => true, 42⟩

/-- Monitor environment that reports the upload as not yet made
(`VideoNotUploaded`). -/
def envNotUploaded : MonEnv := ⟨fun _ => false, 42⟩

/-- Subtitle-conversion oracle that recognizes WebVTT exactly when the text
starts with the code points of `"WEBVTT"`, recognizes SRT when it starts with
`"1"`, and converts by prepending that WebVTT magic. -/
def subEnvSimple : SubEnv :=
  ⟨fun t =>
      if [0x57, 0x45, 0x42, 0x56, 0x54, 0x54].isPrefixOf t then some SubFmt.webVTT
      else if [0x31].isPrefixOf t then some SubFmt.srt
      else none,
    fun _ t => [0x57, 0x45, 0x42, 0x56, 0x54, 0x54, 0x0A] ++ t⟩

/-! Helper lemmas about the list-level database operations. -/

theorem map_update_find {α : Type} (l : List α) (q : α → Bool) (v : α)
    (hqv : q v = true) (hl : (l.find? q).isSome) :
    (l.map (fun x => if q x then v else x)).find? q = some v := by
  induction l with
  | nil => simp [List.find?] at hl
  | cons a l ih =>
    by_cases h : q a
    · simp [List.find?_cons, h, hqv]
    · have h' : (l.find? q).isSome := by simpa [List.find?_cons, h] using hl
      simpa [List.find?_cons, h] using ih h'

theorem map_update_idem {α : Type} (l : List α) (q : α → Bool) (v : α)
    (hqv : q v = true) :
    (l.map (fun x => if q x then v else x)).map (fun x => if q x then v else x) =
      l.map (fun x => if q x then v else x) := by
  rw [List.map_map]
  apply List.map_congr_left
  intro a _
  by_cases h : q a <;> simp [Function.comp, h, hqv]

theorem map_eq_self_of {α : Type} (l : List α) (f : α → α)
    (h : ∀ x ∈ l, f x = x) : l.map f = l := by
  induction l with
  | nil => rfl
  | cons a l ih =>
    simp only [List.map_cons, h a (by simp)]
    rw [ih (fun x hx => h x (by simp [hx]))]

/-- C7: whenever the backend adapter signals that the upload has not yet
happened, the per-url check updates only the upload url's `last_checked`
timestamp and returns: `was_used` remains false, no `Video` row (or any other
row) is created, and no transcoding task is dispatched. -/
theorem C7_not_uploaded_only_timestamp (env : MonEnv) (db : DB) (id : String)
    (u : UploadUrl) (hu : findUrl db id = some u) (hw : u.was_used = false)
    (hnot : env.checkVideo id = false) :
    ∃ t, monitorUploadCheck env db id =
        .ok (saveUrl db { u with last_checked := some t }, []) ∧
      findUrl (saveUrl db { u with last_checked := some t }) id =
        some { u with last_checked := some t } ∧
      ({ u with last_checked := some t } : UploadUrl).was_used = false ∧
      (saveUrl db { u with last_checked := some t }).videos = db.videos ∧
      (saveUrl db { u with last_checked := some t }).procStates = db.procStates ∧
      (saveUrl db { u with last_checked := some t }).formats = db.formats := by
  have hpid : u.public_video_id = id := by
    have := List.find?_some hu
    simpa using this
  refine ⟨match u.last_checked with
          | none => env.time
          | some t => max t env.time, ?_, ?_, ?_, ?_, ?_, ?_⟩
  · simp [monitorUploadCheck, hu, hnot]
  · subst hpid
    refine map_update_find _ _ _ (by simp) ?_
    unfold findUrl at hu
    rw [hu]
    rfl
  · simpa using hw
  · rfl
  · rfl
  · rfl

/-- C7 witness: a concrete not-yet-uploaded check on `urlOne`. -/
theorem C7_witness :
    ∃ t, monitorUploadCheck envNotUploaded dbUrl "v1" =
        .ok (saveUrl dbUrl { urlOne with last_checked := some t }, []) ∧
      findUrl (saveUrl dbUrl { urlOne with last_checked := some t }) "v1" =
        some { urlOne with last_checked := some t } ∧
      ({ urlOne with last_checked := some t } : UploadUrl).was_used = false ∧
      (saveUrl dbUrl { urlOne with last_checked := some t }).videos = dbUrl.videos ∧
      (saveUrl dbUrl { urlOne with last_checked := some t }).procStates = dbUrl.procStates ∧
      (saveUrl dbUrl { urlOne with last_checked := some t }).formats = dbUrl.formats :=
  C7_not_uploaded_only_timestamp envNotUploaded dbUrl "v1" urlOne rfl rfl rfl

/-- C8: for a UTF-8 payload, if the stripped text is detected as WebVTT the
text handed to the backend equals the input stripped of the
BOM/newline/carriage-return character set (round-trip); a payload detected as
another format is uploaded as the WebVTT conversion of the stripped text; an
undetectable payload raises `SubtitleInvalid` and nothing is uploaded. -/
theorem C8_subtitle_normalization (env : SubEnv) (vid sid lang : String)
    (content text : List Nat) (hdec : utf8Decode content = some text) :
    (env.detectFormat (pyStrip text) = some SubFmt.webVTT →
      upload_subtitle env vid sid lang content =
        .ok [Event.backendUploadSubtitle vid sid lang (pyStrip text)]) ∧
    (∀ f, env.detectFormat (pyStrip text) = some f → f ≠ SubFmt.webVTT →
      upload_subtitle env vid sid lang content =
        .ok [Event.backendUploadSubtitle vid sid lang (env.convert f (pyStrip text))]) ∧
    (env.detectFormat (pyStrip text) = none →
      upload_subtitle env vid sid lang content =
        .error (.subtitleInvalid ["Could not detect subtitle format"])) := by
  refine ⟨?_, ?_, ?_⟩
  · intro h
    simp [upload_subtitle, hdec, h]
  · intro f hf hne
    simp [upload_subtitle, hdec, hf, hne]
  · intro h
    simp [upload_subtitle, hdec, h]

/-- C8 witness: the code points of `"WEBVTT"` round-trip unchanged through
`upload_subtitle` with the concrete detection oracle. -/
theorem C8_witness :
    upload_subtitle subEnvSimple "v1" "s1" "en" [0x57, 0x45, 0x42, 0x56, 0x54, 0x54] =
      .ok [Event.backendUploadSubtitle "v1" "s1" "en" [0x57, 0x45, 0x42, 0x56, 0x54, 0x54]] :=
  (C8_subtitle_normalization subEnvSimple "v1" "s1" "en"
      [0x57, 0x45, 0x42, 0x56, 0x54, 0x54] [0x57, 0x45, 0x42, 0x56, 0x54, 0x54] rfl).1 rfl

/-- C9: a payload that is not valid UTF-8 makes `upload_subtitle` raise a
Unicode decode error — not `SubtitleInvalid` — before any stripping or format
detection (the result does not depend on the detection oracle), and since the
subtitle endpoint catches only `SubtitleInvalid`, the error propagates out of
the endpoint uncaught with the transaction rolled back. -/
theorem C9_invalid_utf8_uncaught (env env' : SubEnv) (db : DB)
    (vid sid lang : String) (content : List Nat)
    (hdec : utf8Decode content = none) :
    upload_subtitle env vid sid lang content =
      .error (.unicodeDecodeError ["invalid utf-8"]) ∧
    (∀ args, upload_subtitle env vid sid lang content ≠ .error (.subtitleInvalid args)) ∧
    upload_subtitle env vid sid lang content = upload_subtitle env' vid sid lang content ∧
    subtitlesEndpoint env db vid sid lang content =
      .raised (.unicodeDecodeError ["invalid utf-8"]) db := by
  refine ⟨?_, ?_, ?_, ?_⟩
  · simp [upload_subtitle, hdec]
  · intro args
    simp [upload_subtitle, hdec]
  · simp [upload_subtitle, hdec]
  · simp [subtitlesEndpoint, upload_subtitle, hdec]

/-- C9 witness: the single byte `0xff` is rejected as invalid UTF-8 and the
error escapes the endpoint. -/
theorem C9_witness :
    upload_subtitle subEnvSimple "v1" "s1" "en" [0xff] =
      .error (.unicodeDecodeError ["invalid utf-8"]) ∧
    subtitlesEndpoint subEnvSimple dbOne "v1" "s1" "en" [0xff] =
      .raised (.unicodeDecodeError ["invalid utf-8"]) dbOne := by
  have h := C9_invalid_utf8_uncaught subEnvSimple subEnvSimple dbOne "v1" "s1" "en" [0xff] rfl
  exact ⟨h.1, h.2.2.2⟩


theorem monitor_first_check (env : MonEnv) (db : DB) (u : UploadUrl)
    (hu : findUrl db u.public_video_id = some u)
    (hnovid : ∀ v ∈ db.videos, v.public_id ≠ u.public_video_id)
    (hup : env.checkVideo u.public_video_id = true) :
    monitorUploadCheck env db u.public_video_id =
      .ok (monitorResultDb env db u,
           [Event.sendTask "transcode_video" u.public_video_id]) := by
  have hfn : db.videos.find?
      (fun v => v.public_id == u.public_video_id && v.owner == u.owner) = none :=
    List.find?_eq_none.mpr (fun v hv => by simp [hnovid v hv])
  have han : db.videos.any (fun v => v.public_id == u.public_video_id) = false :=
    List.any_eq_false.mpr (fun v hv => by simp [hnovid v hv])
  have hmap : db.videos.map (fun v =>
      if v.public_id = u.public_video_id then { v with title := u.filename } else v) =
      db.videos :=
    map_eq_self_of _ _ (fun v hv => by simp [hnovid v hv])
  cases hpl : u.playlist with
  | none =>
    simp [monitorUploadCheck, hu, hup, getOrCreateVideo, saveUrl, setTitle,
      addPlaylistLink, hfn, han, hmap, hpl, monitorResultDb, monitorResultUrl]
  | some pl =>
    by_cases hmem : (u.public_video_id, pl) ∈ db.playlistLinks <;>
      simp [monitorUploadCheck, hu, hup, getOrCreateVideo, saveUrl, setTitle,
        addPlaylistLink, hfn, han, hmap, hpl, hmem, monitorResultDb, monitorResultUrl]

theorem monitor_noop (env : MonEnv) (db2 : DB) (p : String) (u2 : UploadUrl)
    (hfind : findUrl db2 p = some u2)
    (hw : u2.was_used = true)
    (tc : Nat) (hlc : u2.last_checked = some tc) (hmax : max tc env.time = tc)
    (hup : env.checkVideo p = true)
    (hsave : saveUrl db2 u2 = db2)
    (hgoc : getOrCreateVideo db2 p u2.owner = .ok (db2, false))
    (hset : setTitle db2 p u2.filename = db2)
    (hpl : ∀ pl, u2.playlist = some pl → addPlaylistLink db2 p pl = db2) :
    monitorUploadCheck env db2 p = .ok (db2, []) := by
  have hrebuild : ({ u2 with was_used := true, last_checked := some tc } : UploadUrl) = u2 := by
    rw [← hw, ← hlc]
  unfold monitorUploadCheck
  rw [hfind]
  simp only [hup, hlc, if_true]
  rw [hmax, hrebuild, hsave, hgoc]
  simp only [hset]
  cases hplc : u2.playlist with
  | none => rfl
  | some pl =>
    dsimp only
    rw [hpl pl hplc]
    simp

theorem monitor_repeat_check (env : MonEnv) (db : DB) (u : UploadUrl)
    (hu : findUrl db u.public_video_id = some u)
    (hnovid : ∀ v ∈ db.videos, v.public_id ≠ u.public_video_id)
    (hup : env.checkVideo u.public_video_id = true) :
    monitorUploadCheck env (monitorResultDb env db u) u.public_video_id =
      .ok (monitorResultDb env db u, []) := by
  have husome :
      (db.uploadUrls.find? (fun x => x.public_video_id == u.public_video_id)).isSome := by
    unfold findUrl at hu
    rw [hu]
    rfl
  have hfind1 : findUrl (monitorResultDb env db u) u.public_video_id =
      some (monitorResultUrl env u) :=
    map_update_find _ _ _ (by simp [monitorResultUrl]) husome
  refine monitor_noop env (monitorResultDb env db u) u.public_video_id
    (monitorResultUrl env u) hfind1 rfl
    (match u.last_checked with
     | none => env.time
     | some t => max t env.time) rfl ?_ hup ?_ ?_ ?_ ?_
  · -- the refreshed timestamp absorbs another `max _ now`
    cases h : u.last_checked with
    | none => simp
    | some t => simp [max_assoc]
  · -- saving the already-saved url row changes nothing
    have key : (monitorResultDb env db u).uploadUrls.map
        (fun x => if x.public_video_id == (monitorResultUrl env u).public_video_id
                  then monitorResultUrl env u else x) =
        (monitorResultDb env db u).uploadUrls :=
      map_update_idem db.uploadUrls
        (fun x => x.public_video_id == u.public_video_id) (monitorResultUrl env u)
        (by simp [monitorResultUrl])
    unfold saveUrl
    rw [key]
  · -- get-or-create finds the video created by the first check
    have hfindv : (monitorResultDb env db u).videos.find?
        (fun v => v.public_id == u.public_video_id &&
                  v.owner == (monitorResultUrl env u).owner) =
        some ⟨u.public_video_id, u.filename, u.owner⟩ := by
      show (db.videos ++ [(⟨u.public_video_id, u.filename, u.owner⟩ : Video)]).find?
          (fun v => v.public_id == u.public_video_id && v.owner == u.owner) =
          some ⟨u.public_video_id, u.filename, u.owner⟩
      rw [List.find?_append, List.find?_eq_none.mpr (fun v hv => by simp [hnovid v hv])]
      simp [List.find?]
    unfold getOrCreateVideo
    rw [hfindv]
  · -- re-setting the title to the same filename changes nothing
    have key : (monitorResultDb env db u).videos.map
        (fun v => if v.public_id == u.public_video_id
                  then { v with title := (monitorResultUrl env u).filename } else v) =
        (monitorResultDb env db u).videos := by
      show (db.videos ++ [(⟨u.public_video_id, u.filename, u.owner⟩ : Video)]).map
          (fun v => if v.public_id == u.public_video_id
                    then { v with title := u.filename } else v) =
          db.videos ++ [(⟨u.public_video_id, u.filename, u.owner⟩ : Video)]
      apply map_eq_self_of
      intro x hx
      rcases List.mem_append.mp hx with h | h
      · simp [hnovid x h]
      · simp only [List.mem_singleton] at h
        subst h
        simp
    unfold setTitle
    rw [key]
  · -- the playlist link is already attached
    intro pl hpl'
    have hplu : u.playlist = some pl := hpl'
    have hmem : (u.public_video_id, pl) ∈ (monitorResultDb env db u).playlistLinks := by
      show (u.public_video_id, pl) ∈
        (match u.playlist with
         | none => db.playlistLinks
         | some q =>
           if (u.public_video_id, q) ∈ db.playlistLinks then db.playlistLinks
           else db.playlistLinks ++ [(u.public_video_id, q)])
      rw [hplu]
      by_cases h : (u.public_video_id, pl) ∈ db.playlistLinks
      · simp [h]
      · simp [h]
    unfold addPlaylistLink
    rw [if_pos hmem]

/-- C1: for every upload url whose upload the backend reports complete, the
per-url check marks the url as used and performs a get-or-create of the
`Video` keyed by the shared public id; iterating the check any number of
times yields exactly one `Video` row; the transcoding task is dispatched by
the call that performed the creation and only by it, and a call that finds
the video already existing changes nothing and dispatches nothing. -/
theorem C1_concurrent_checks_one_video (env : MonEnv) (db : DB) (id : String)
    (u : UploadUrl) (k : Nat)
    (hu : findUrl db id = some u)
    (hnovid : ∀ v ∈ db.videos, v.public_id ≠ id)
    (hup : env.checkVideo id = true) :
    ∃ db1 u',
      monitorUploadCheck env db id = .ok (db1, [Event.sendTask "transcode_video" id]) ∧
      findUrl db1 id = some u' ∧ u'.was_used = true ∧
      videoCount db1 id = 1 ∧
      monitorUploadCheck env db1 id = .ok (db1, []) ∧
      monitorUploadIter env db id (k + 1) =
        .ok (db1, [Event.sendTask "transcode_video" id]) := by
  have hpid : u.public_video_id = id := by simpa using List.find?_some hu
  subst hpid
  have husome :
      (db.uploadUrls.find? (fun x => x.public_video_id == u.public_video_id)).isSome := by
    unfold findUrl at hu
    rw [hu]
    rfl
  have hfind1 : findUrl (monitorResultDb env db u) u.public_video_id =
      some (monitorResultUrl env u) :=
    map_update_find _ _ _ (by simp [monitorResultUrl]) husome
  have hstep := monitor_first_check env db u hu hnovid hup
  have hrepeat := monitor_repeat_check env db u hu hnovid hup
  refine ⟨monitorResultDb env db u, monitorResultUrl env u, hstep, hfind1, rfl, ?_, hrepeat, ?_⟩
  · show ((db.videos ++ [(⟨u.public_video_id, u.filename, u.owner⟩ : Video)]).filter
      (fun v => v.public_id == u.public_video_id)).length = 1
    rw [List.filter_append,
      List.filter_eq_nil_iff.mpr (fun v hv => by simp [hnovid v hv])]
    simp [List.filter]
  · have hiter : ∀ m, monitorUploadIter env (monitorResultDb env db u) u.public_video_id m =
        .ok (monitorResultDb env db u, []) := by
      intro m
      induction m with
      | zero => rfl
      | succ m ih => simp [monitorUploadIter, hrepeat, ih]
    simp [monitorUploadIter, hstep, hiter k]

/-- C1 witness: two successive checks on the concrete store `dbUrl` create
exactly one video row for `"v1"` and dispatch transcoding exactly once. -/
theorem C1_witness :
    ∃ db1 u',
      monitorUploadCheck envUploaded dbUrl "v1" =
        .ok (db1, [Event.sendTask "transcode_video" "v1"]) ∧
      findUrl db1 "v1" = some u' ∧ u'.was_used = true ∧
      videoCount db1 "v1" = 1 ∧
      monitorUploadCheck envUploaded db1 "v1" = .ok (db1, []) ∧
      monitorUploadIter envUploaded dbUrl "v1" 2 =
        .ok (db1, [Event.sendTask "transcode_video" "v1"]) :=
  C1_concurrent_checks_one_video envUploaded dbUrl "v1" urlOne 1 rfl
    (by simp [dbUrl]) rfl

/-! Helper lemmas for the poll-loop analysis. -/

theorem getD_set_self {α : Type} (l : List α) (j : Nat) (a d : α)
    (h : j < l.length) : (l.set j a).getD j d = a := by
  simp [List.getD_eq_getElem?_getD, List.getElem?_set_self h]

theorem getD_set_ne {α : Type} (l : List α) (i j : Nat) (a d : α)
    (h : j ≠ i) : (l.set j a).getD i d = l.getD i d := by
  simp [List.getD_eq_getElem?_getD, List.getElem?_set_ne h]

theorem all_true_iff_getD (l : List Bool) :
    (∀ x ∈ l, x = true) ↔ ∀ j, j < l.length → l.getD j false = true := by
  constructor
  · intro h j hj
    have : l.getD j false = l[j] := by
      simp [List.getD_eq_getElem?_getD, List.getElem?_eq_getElem hj]
    rw [this]
    exact h _ (l.getElem_mem hj)
  · intro h x hx
    obtain ⟨j, hj, rfl⟩ := List.getElem_of_mem hx
    have : l.getD j false = l[j] := by
      simp [List.getD_eq_getElem?_getD, List.getElem?_eq_getElem hj]
    rw [← this]
    exact h j hj

theorem sum_eq_range_getD (l : List ℚ) :
    l.sum = ((List.range l.length).map (fun j => l.getD j 0)).sum := by
  induction l with
  | nil => rfl
  | cons a l ih =>
    rw [List.length_cons, List.range_succ_eq_map, List.map_cons, List.map_map]
    simp only [List.sum_cons, List.getD_cons_zero]
    rw [ih]
    have h2 : List.map ((fun j => (a :: l).getD j 0) ∘ Nat.succ) (List.range l.length)
        = List.map (fun j => l.getD j 0) (List.range l.length) :=
      List.map_congr_left (fun j _ => by simp [Function.comp])
    rw [h2]

theorem jobStateB_step (env : TEnv) (jobs : List Nat) (j p : Nat) :
    ((jobStateB env jobs j (p + 1)).1, resolvedB env jobs j (p + 1)) =
      stepB env jobs p j (jobStateB env jobs j p).1 (resolvedB env jobs j p) := by
  show ((jobStep env jobs p j (jobStateB env jobs j p)).1,
        !(isRunning (jobStep env jobs p j (jobStateB env jobs j p)).2)) = _
  unfold resolvedB stepB jobStep
  cases hs : (jobStateB env jobs j p).2 with
  | running =>
    simp only [hs, isRunning]
    cases hc : env.checkProgress p (jobs.getD j 0) with
    | ok qf =>
      obtain ⟨q, fin⟩ := qf
      cases fin <;> simp [isRunning, hs]
    | error e => simp [isRunning, hs]
  | done => simp [isRunning, hs]
  | failedJob => simp [isRunning, hs]

theorem saveProc_fields (db : DB) (r : PSRow) :
    (saveProc db r).videos = db.videos ∧ (saveProc db r).uploadUrls = db.uploadUrls ∧
    (saveProc db r).formats = db.formats ∧ (saveProc db r).subtitles = db.subtitles ∧
    (saveProc db r).playlistLinks = db.playlistLinks := by
  simp [saveProc]

theorem saveProc_saveProc (db : DB) (r1 r2 : PSRow) (h : r1.videoId = r2.videoId) :
    saveProc (saveProc db r1) r2 = saveProc db r2 := by
  unfold saveProc
  simp only [List.map_map]
  congr 1
  apply List.map_congr_left
  intro x _
  by_cases hx : x.videoId == r1.videoId
  · have hx' : (x.videoId == r2.videoId) = true := by
      rw [← h]
      exact hx
    simp [Function.comp, hx, hx', h]
  · have hx' : (x.videoId == r2.videoId) = false := by
      rw [← h]
      simpa using hx
    simp [Function.comp, hx, hx']

theorem pollFold_spec (env : TEnv) (jobs : List Nat) (p : Nat)
    (hnu : ∀ j, j < jobs.length → expectedCP (env.checkProgress p (jobs.getD j 0))) :
    ∀ m st, m ≤ jobs.length →
      st.progress.length = jobs.length → st.resolved.length = jobs.length →
      ∃ st' : PollSt,
        (List.range m).foldlM (fun s j => pollJob env jobs p j s) st = .ok st' ∧
        st'.progress.length = jobs.length ∧
        st'.resolved.length = jobs.length ∧
        (∀ j, j < m →
          (st'.progress.getD j 0, st'.resolved.getD j false) =
            stepB env jobs p j (st.progress.getD j 0) (st.resolved.getD j false)) ∧
        (∀ j, m ≤ j →
          st'.progress.getD j 0 = st.progress.getD j 0 ∧
          st'.resolved.getD j false = st.resolved.getD j false) ∧
        st'.errors = st.errors ++ (List.range m).filterMap (fun j =>
          if st.resolved.getD j false then none
          else
            match env.checkProgress p (jobs.getD j 0) with
            | .error e => some (e.args.headD "")
            | .ok _ => none) := by
  intro m
  induction m with
  | zero =>
    intro st _ h1 h2
    exact ⟨st, rfl, h1, h2, fun j hj => absurd hj (Nat.not_lt_zero j),
      fun j _ => ⟨rfl, rfl⟩, by simp⟩
  | succ m ih =>
    intro st hm h1 h2
    obtain ⟨st', hfold, hl1, hl2, hlt, hge, herr⟩ := ih st (Nat.le_of_succ_le hm) h1 h2
    have hmn : m < jobs.length := hm
    have hr' : st'.resolved.getD m false = st.resolved.getD m false := (hge m (Nat.le_refl m)).2
    have hv' : st'.progress.getD m 0 = st.progress.getD m 0 := (hge m (Nat.le_refl m)).1
    have hfold1 : (List.range (m + 1)).foldlM (fun s j => pollJob env jobs p j s) st =
        pollJob env jobs p m st' := by
      rw [List.range_succ, List.foldlM_append, hfold]
      show pollJob env jobs p m st' >>= (fun b => pure b) = pollJob env jobs p m st'
      rw [bind_pure]
    have hfm : (List.range (m + 1)).filterMap (fun j =>
        if st.resolved.getD j false then none
        else
          match env.checkProgress p (jobs.getD j 0) with
          | .error e => some (e.args.headD "")
          | .ok _ => none) =
        (List.range m).filterMap (fun j =>
          if st.resolved.getD j false then none
          else
            match env.checkProgress p (jobs.getD j 0) with
            | .error e => some (e.args.headD "")
            | .ok _ => none) ++
        (if st.resolved.getD m false then []
         else
           match env.checkProgress p (jobs.getD m 0) with
           | .error e => [e.args.headD ""]
           | .ok _ => []) := by
      rw [List.range_succ, List.filterMap_append]
      congr 1
      cases hrm : st.resolved.getD m false with
      | true => simp [← List.getD_eq_getElem?_getD, hrm]
      | false =>
        cases hc : env.checkProgress p (jobs.getD m 0) with
        | ok v => simp [← List.getD_eq_getElem?_getD, hrm, hc]
        | error e => simp [← List.getD_eq_getElem?_getD, hrm, hc]
    cases hr : st.resolved.getD m false with
    | true =>
      refine ⟨st', ?_, hl1, hl2, ?_, ?_, ?_⟩
      · rw [hfold1]
        unfold pollJob
        rw [hr', hr]
        rfl
      · intro j hj
        rcases Nat.lt_succ_iff_lt_or_eq.mp hj with hj' | rfl
        · exact hlt j hj'
        · rw [hv', hr', hr]
          unfold stepB
          simp
      · intro j hj
        exact hge j (Nat.le_of_succ_le hj)
      · rw [herr, hfm, hr]
        simp
    | false =>
      have hex := hnu m hmn
      cases hc : env.checkProgress p (jobs.getD m 0) with
      | ok qf =>
        obtain ⟨q, fin⟩ := qf
        refine Exists.intro
          { st' with
              progress := st'.progress.set m q,
              resolved := if fin then st'.resolved.set m true else st'.resolved }
          ⟨?_, ?_, ?_, ?_, ?_, ?_⟩
        · rw [hfold1]
          unfold pollJob
          rw [hr', hr, hc]
          rfl
        · simp [hl1]
        · cases fin <;> simp [hl2]
        · intro j hj
          rcases Nat.lt_succ_iff_lt_or_eq.mp hj with hj' | rfl
          · have hne : j ≠ m := Nat.ne_of_lt hj'
            have e1 : (st'.progress.set m q).getD j 0 = st'.progress.getD j 0 :=
              getD_set_ne _ j m q 0 (Ne.symm hne)
            have e2 : (if fin then st'.resolved.set m true else st'.resolved).getD j false =
                st'.resolved.getD j false := by
              cases fin
              · rfl
              · exact getD_set_ne _ j m true false (Ne.symm hne)
            simp only [e1, e2]
            exact hlt j hj'
          · have e1 : (st'.progress.set j q).getD j 0 = q :=
              getD_set_self _ j q 0 (by rw [hl1]; exact hmn)
            have e2 : (if fin then st'.resolved.set j true else st'.resolved).getD j false =
                fin := by
              cases fin
              · show st'.resolved.getD j false = false
                rw [hr', hr]
              · show (st'.resolved.set j true).getD j false = true
                exact getD_set_self st'.resolved j true false (by rw [hl2]; exact hmn)
            rw [e1, e2]
            unfold stepB
            rw [hr, hc]
            simp
        · intro j hj
          have hne : j ≠ m := by omega
          have e1 : (st'.progress.set m q).getD j 0 = st'.progress.getD j 0 :=
            getD_set_ne _ j m q 0 (Ne.symm hne)
          have e2 : (if fin then st'.resolved.set m true else st'.resolved).getD j false =
              st'.resolved.getD j false := by
            cases fin
            · rfl
            · exact getD_set_ne _ j m true false (Ne.symm hne)
          rw [e1, e2]
          exact hge j (Nat.le_of_succ_le hj)
        · rw [herr, hfm, hr, hc]
          simp
      | error e =>
        rw [hc] at hex
        cases e with
        | transcodingFailed args =>
          refine Exists.intro
            { st' with
                resolved := st'.resolved.set m true,
                errors := st'.errors ++ [args.headD ""] }
            ⟨?_, hl1, ?_, ?_, ?_, ?_⟩
          · rw [hfold1]
            unfold pollJob
            rw [hr', hr, hc]
            rfl
          · simp [hl2]
          · intro j hj
            rcases Nat.lt_succ_iff_lt_or_eq.mp hj with hj' | rfl
            · have hne : j ≠ m := Nat.ne_of_lt hj'
              have e2 : (st'.resolved.set m true).getD j false = st'.resolved.getD j false :=
                getD_set_ne _ j m true false (Ne.symm hne)
              simp only [e2]
              exact hlt j hj'
            · have e2 : (st'.resolved.set j true).getD j false = true :=
                getD_set_self _ j true false (by rw [hl2]; exact hmn)
              rw [e2, hv']
              unfold stepB
              rw [hr, hc]
              simp
          · intro j hj
            have hne : j ≠ m := by omega
            have e2 : (st'.resolved.set m true).getD j false = st'.resolved.getD j false :=
              getD_set_ne _ j m true false (Ne.symm hne)
            rw [e2]
            exact hge j (Nat.le_of_succ_le hj)
          · rw [herr, hfm, hr, hc]
            simp [PyExc.args]
        | videoNotUploaded args => simp [expectedCP] at hex
        | lockUnavailable args => simp [expectedCP] at hex
        | subtitleInvalid args => simp [expectedCP] at hex
        | unicodeDecodeError args => simp [expectedCP] at hex
        | doesNotExist args => simp [expectedCP] at hex
        | generic args => simp [expectedCP] at hex

theorem filterMap_congr_mem {α β : Type} (l : List α) (f g : α → Option β)
    (h : ∀ a ∈ l, f a = g a) : l.filterMap f = l.filterMap g := by
  induction l with
  | nil => rfl
  | cons a l ih =>
    rw [List.filterMap_cons, List.filterMap_cons, h a (by simp),
      ih (fun x hx => h x (by simp [hx]))]

theorem transLoop_spec (env : TEnv) (jobs : List Nat) (id : String)
    (hnu : noUnexpected env jobs) :
    ∀ fuel p st db evs ps,
      st.progress.length = jobs.length →
      st.resolved.length = jobs.length →
      (∀ j, j < jobs.length →
        st.progress.getD j 0 = (jobStateB env jobs j p).1 ∧
        st.resolved.getD j false = resolvedB env jobs j p) →
      st.errors = errsB env jobs p →
      (transLoop env jobs id fuel p st db evs ps).2.2.2 = none ∨
      ∃ k st',
        transLoop env jobs id fuel p st db evs ps =
          ((if k = 0 then db else saveProc db
              { ps with
                  progress := codeMeanB env jobs (p + k),
                  status := Status.processing }),
           evs ++ (List.range k).map (fun i =>
             Event.saveState Status.processing (codeMeanB env jobs (p + i + 1)) ps.message),
           (if k = 0 then ps else
              { ps with
                  progress := codeMeanB env jobs (p + k),
                  status := Status.processing }),
           some (.ok st')) ∧
        st'.errors = errsB env jobs (p + k) ∧
        (∀ j, j < jobs.length → resolvedB env jobs j (p + k) = true) ∧
        (k = 0 ∨ 0 < jobs.length) := by
  intro fuel
  induction fuel with
  | zero =>
    intro p st db evs ps h1 h2 hcomp herr
    by_cases hguard : jobs.length ≤ st.resolved.count true
    · right
      refine ⟨0, st, ?_, by simpa using herr, ?_, Or.inl rfl⟩
      · simp [transLoop, hguard]
      · intro j hj
        have hcnt : st.resolved.count true = st.resolved.length :=
          Nat.le_antisymm (List.count_le_length true st.resolved) (by rw [h2]; exact hguard)
        have hall := List.count_eq_length.mp hcnt
        have := (all_true_iff_getD st.resolved).mp (fun x hx => (hall x hx).symm) j
          (by rw [h2]; exact hj)
        rw [Nat.add_zero, ← (hcomp j hj).2]
        exact this
    · left
      simp [transLoop, hguard]
  | succ fuel' ih =>
    intro p st db evs ps h1 h2 hcomp herr
    by_cases hguard : jobs.length ≤ st.resolved.count true
    · right
      refine ⟨0, st, ?_, by simpa using herr, ?_, Or.inl rfl⟩
      · simp [transLoop, hguard]
      · intro j hj
        have hcnt : st.resolved.count true = st.resolved.length :=
          Nat.le_antisymm (List.count_le_length true st.resolved) (by rw [h2]; exact hguard)
        have hall := List.count_eq_length.mp hcnt
        have := (all_true_iff_getD st.resolved).mp (fun x hx => (hall x hx).symm) j
          (by rw [h2]; exact hj)
        rw [Nat.add_zero, ← (hcomp j hj).2]
        exact this
    · have hn : 0 < jobs.length := by
        rcases Nat.eq_zero_or_pos jobs.length with h0 | h0
        · exact absurd (h0 ▸ Nat.zero_le _) hguard
        · exact h0
      obtain ⟨st1, hfold, hl1', hl2', hlt, hge, herrF⟩ :=
        pollFold_spec env jobs p (fun j hj => hnu p j hj) jobs.length st
          (Nat.le_refl _) h1 h2
      have hpass : pollPass env jobs p st = .ok st1 := hfold
      have hc1 : ∀ j, j < jobs.length →
          st1.progress.getD j 0 = (jobStateB env jobs j (p + 1)).1 ∧
          st1.resolved.getD j false = resolvedB env jobs j (p + 1) := by
        intro j hj
        have h := hlt j hj
        rw [(hcomp j hj).1, (hcomp j hj).2, ← jobStateB_step env jobs j p] at h
        exact ⟨congrArg Prod.fst h, congrArg Prod.snd h⟩
      have herr1 : st1.errors = errsB env jobs (p + 1) := by
        rw [herrF, herr]
        show errsB env jobs p ++ _ = errsB env jobs (p + 1)
        have hpf : List.filterMap
            (fun j => if st.resolved.getD j false = true then none
             else
               match env.checkProgress p (jobs.getD j 0) with
               | .error e => some (e.args.headD "")
               | .ok _ => none) (List.range jobs.length) = passFailsB env jobs p := by
          unfold passFailsB
          apply filterMap_congr_mem
          intro j hj
          rw [(hcomp j (List.mem_range.mp hj)).2]
        rw [hpf]
        rfl
      have hsum : st1.progress.sum / (jobs.length : ℚ) = codeMeanB env jobs (p + 1) := by
        rw [sum_eq_range_getD st1.progress, hl1']
        unfold codeMeanB
        congr 2
        apply List.map_congr_left
        intro j hj
        exact (hc1 j (List.mem_range.mp hj)).1
      have hstep : transLoop env jobs id (fuel' + 1) p st db evs ps =
          transLoop env jobs id fuel' (p + 1) st1
            (saveProc db
              { ps with
                  progress := codeMeanB env jobs (p + 1),
                  status := Status.processing })
            (evs ++ [Event.saveState Status.processing (codeMeanB env jobs (p + 1)) ps.message])
            { ps with
                progress := codeMeanB env jobs (p + 1),
                status := Status.processing } := by
        show (if jobs.length ≤ st.resolved.count true then (db, evs, ps, some (Except.ok st))
          else
            match pollPass env jobs p st with
            | .error e => (db, evs, ps, some (.error e))
            | .ok st' =>
              transLoop env jobs id fuel' (p + 1) st'
                (saveProc db
                  { ps with
                      progress := st'.progress.sum / (jobs.length : ℚ),
                      status := Status.processing })
                (evs ++ [Event.saveState Status.processing
                  (st'.progress.sum / (jobs.length : ℚ)) ps.message])
                { ps with
                    progress := st'.progress.sum / (jobs.length : ℚ),
                    status := Status.processing }) = _
        rw [if_neg hguard, hpass]
        dsimp only
        rw [hsum]
      rcases ih (p + 1) st1
          (saveProc db
            { ps with
                progress := codeMeanB env jobs (p + 1),
                status := Status.processing })
          (evs ++ [Event.saveState Status.processing (codeMeanB env jobs (p + 1)) ps.message])
          { ps with
              progress := codeMeanB env jobs (p + 1),
              status := Status.processing }
          hl1' hl2' hc1 herr1 with hnone | hok
      · left
        rw [hstep]
        exact hnone
      · obtain ⟨k', st'', heq, herr'', hres'', hk''⟩ := hok
        right
        have harith : p + 1 + k' = p + (k' + 1) := by omega
        have hmapshift : (List.range (k' + 1)).map (fun i =>
            Event.saveState Status.processing (codeMeanB env jobs (p + i + 1)) ps.message) =
            Event.saveState Status.processing (codeMeanB env jobs (p + 1)) ps.message ::
              (List.range k').map (fun i =>
                Event.saveState Status.processing (codeMeanB env jobs (p + 1 + i + 1)) ps.message) := by
          rw [List.range_succ_eq_map, List.map_cons, List.map_map]
          congr 1
          apply List.map_congr_left
          intro i _
          have hidx : p + (i + 1) + 1 = p + 1 + i + 1 := by omega
          simp [Function.comp, hidx]
        refine ⟨k' + 1, st'', ?_, ?_, ?_, Or.inr hn⟩
        · rw [hstep, heq, hmapshift]
          cases k' with
          | zero =>
            simp
          | succ q =>
            have hsp : saveProc
                (saveProc db
                  { ps with
                      progress := codeMeanB env jobs (p + 1),
                      status := Status.processing })
                { ps with
                    progress := codeMeanB env jobs (p + 1 + (q + 1)),
                    status := Status.processing } =
                saveProc db
                  { ps with
                      progress := codeMeanB env jobs (p + 1 + (q + 1)),
                      status := Status.processing } :=
              saveProc_saveProc _ _ _ rfl
            rw [harith] at hsp
            simp only [harith]
            rw [hsp]
            simp
        · rw [← harith]
          exact herr''
        · intro j hj
          rw [← harith]
          exact hres'' j hj

theorem foldl_addFormat (id : String) : ∀ (fmts : List (String × ℚ)) (db : DB),
    fmts.foldl (fun d f => addFormat d id f.1 f.2) db =
      { db with formats := db.formats ++ fmts.map (fun f => (⟨id, f.1, f.2⟩ : FormatRow)) } := by
  intro fmts
  induction fmts with
  | nil =>
    intro db
    simp
  | cons f fmts ih =>
    intro db
    rw [List.foldl_cons, ih]
    simp [addFormat]

theorem findProc_after (db : DB) (r : PSRow) (id : String) (hr : r.videoId = id)
    (hl : (db.procStates.find? (fun x => x.videoId == id)).isSome) :
    findProc (saveProc db r) id = some r := by
  subst hr
  exact map_update_find _ _ _ (by simp) hl

theorem transcodeInner_ok_spec (env : TEnv) (fuel : Nat) (db : DB) (id : String)
    (v0 : Video) (ps0 : PSRow) (jobs : List Nat) (db' : DB) (evs : List Event)
    (hv : findVideo db id = some v0)
    (hp : findProc db id = some ps0)
    (hs : env.startTranscoding id = .ok jobs)
    (hnu : noUnexpected env jobs)
    (hrun : transcodeInner env fuel db id = ⟨db', evs, some (.ok ())⟩) :
    ∃ k,
      (k = 0 ∨ 0 < jobs.length) ∧
      (∀ j, j < jobs.length → resolvedB env jobs j k = true) ∧
      db'.videos = db.videos ∧
      db'.uploadUrls = db.uploadUrls ∧
      ((errsB env jobs k = [] ∧
        ∃ fmts, env.iterFormats id = .ok fmts ∧
          evs = Event.saveState Status.pending 0 ps0.message ::
            (loopSavesB env jobs ps0.message k ++ [Event.deleteFormats id] ++
             fmts.map (fun f => Event.createFormat id f.1 f.2) ++
             [Event.saveState Status.success (lastProgB env jobs k) ""]) ∧
          formatsOf db' id = fmts.map (fun f => ⟨id, f.1, f.2⟩) ∧
          findProc db' id = some ⟨id, Status.success, lastProgB env jobs k, "", env.time⟩) ∨
       (errsB env jobs k ≠ [] ∧
        env.deleteVideo id = .ok () ∧
        evs = Event.saveState Status.pending 0 ps0.message ::
          (loopSavesB env jobs ps0.message k ++
           [Event.deleteFormats id,
            Event.saveState Status.failed (lastProgB env jobs k)
              (String.intercalate "\n" (errsB env jobs k)),
            Event.backendDeleteVideo id]) ∧
        formatsOf db' id = [] ∧
        findProc db' id =
          some ⟨id, Status.failed, lastProgB env jobs k,
                String.intercalate "\n" (errsB env jobs k), env.time⟩)) := by
  have hpid : ps0.videoId = id := by simpa using List.find?_some hp
  subst hpid
  have hinv : ∀ j, j < jobs.length →
      (List.replicate jobs.length (0 : ℚ)).getD j 0 = (jobStateB env jobs j 0).1 ∧
      (List.replicate jobs.length false).getD j false = resolvedB env jobs j 0 := by
    intro j hj
    constructor
    · simp [List.getD_eq_getElem?_getD, List.getElem?_replicate_of_lt hj, jobStateB]
    · simp [List.getD_eq_getElem?_getD, List.getElem?_replicate_of_lt hj, jobStateB,
        resolvedB, isRunning]
  have hloop := transLoop_spec env jobs ps0.videoId hnu fuel 0
    ⟨List.replicate jobs.length 0, List.replicate jobs.length false, []⟩
    (saveProc db { ps0 with progress := 0, status := Status.pending, started_at := env.time })
    [Event.saveState Status.pending 0 ps0.message]
    { ps0 with progress := 0, status := Status.pending, started_at := env.time }
    (by simp) (by simp) hinv rfl
  rcases htl : transLoop env jobs ps0.videoId fuel 0
      ⟨List.replicate jobs.length 0, List.replicate jobs.length false, []⟩
      (saveProc db { ps0 with progress := 0, status := Status.pending, started_at := env.time })
      [Event.saveState Status.pending 0 ps0.message]
      { ps0 with progress := 0, status := Status.pending, started_at := env.time }
    with ⟨db2, evs2, ps2, out⟩
  rw [htl] at hloop
  have hrun' := hrun
  unfold transcodeInner at hrun'
  rw [hv] at hrun'
  dsimp only at hrun'
  rw [hp] at hrun'
  dsimp only at hrun'
  rw [hs] at hrun'
  dsimp only at hrun'
  rw [htl] at hrun'
  rcases hloop with hnone | hok
  · simp only at hnone
    subst hnone
    dsimp only at hrun'
    exact absurd (congrArg TIResult.outcome hrun') (by simp)
  · obtain ⟨k, st', heq, herrK, hresK, hkn⟩ := hok
    simp only [Nat.zero_add] at heq herrK hresK
    have hout : out = some (.ok st') := congrArg (fun t => t.2.2.2) heq
    subst hout
    dsimp only at hrun'
    have hdb2 := congrArg
      (fun t : DB × List Event × PSRow × Option (Except PyExc PollSt) => t.1) heq
    have hevs2 := congrArg
      (fun t : DB × List Event × PSRow × Option (Except PyExc PollSt) => t.2.1) heq
    have hps2 := congrArg
      (fun t : DB × List Event × PSRow × Option (Except PyExc PollSt) => t.2.2.1) heq
    simp only at hdb2 hevs2 hps2
    subst hdb2
    subst hevs2
    subst hps2
    rw [herrK] at hrun'
    refine ⟨k, hkn, by simpa using hresK, ?_⟩
    have hproj1 : (if k = 0 then
        ({ ps0 with progress := (0 : ℚ), status := Status.pending, started_at := env.time } : PSRow)
      else
        { ps0 with
            progress := codeMeanB env jobs k,
            status := Status.processing,
            started_at := env.time }).videoId = ps0.videoId := by
      by_cases hk : k = 0 <;> simp [hk]
    have hproj2 : (if k = 0 then
        ({ ps0 with progress := (0 : ℚ), status := Status.pending, started_at := env.time } : PSRow)
      else
        { ps0 with
            progress := codeMeanB env jobs k,
            status := Status.processing,
            started_at := env.time }).progress = lastProgB env jobs k := by
      by_cases hk : k = 0 <;> simp [hk, lastProgB]
    have hproj3 : (if k = 0 then
        ({ ps0 with progress := (0 : ℚ), status := Status.pending, started_at := env.time } : PSRow)
      else
        { ps0 with
            progress := codeMeanB env jobs k,
            status := Status.processing,
            started_at := env.time }).started_at = env.time := by
      by_cases hk : k = 0 <;> simp [hk]
    have hdbif : (if k = 0 then
        saveProc db
          { ps0 with progress := (0 : ℚ), status := Status.pending, started_at := env.time }
      else
        saveProc
          (saveProc db
            { ps0 with progress := (0 : ℚ), status := Status.pending, started_at := env.time })
          { ps0 with
              progress := codeMeanB env jobs k,
              status := Status.processing,
              started_at := env.time }) =
        saveProc db (if k = 0 then
          ({ ps0 with progress := (0 : ℚ), status := Status.pending, started_at := env.time } : PSRow)
        else
          { ps0 with
              progress := codeMeanB env jobs k,
              status := Status.processing,
              started_at := env.time }) := by
      by_cases hk : k = 0
      · simp [hk]
      · rw [if_neg hk, if_neg hk]
        exact saveProc_saveProc _ _ _ rfl
    have hbase : (db.procStates.find? (fun x => x.videoId == ps0.videoId)).isSome := by
      unfold findProc at hp
      rw [hp]
      rfl
    have hmid : findProc (saveProc db (if k = 0 then
        ({ ps0 with progress := (0 : ℚ), status := Status.pending, started_at := env.time } : PSRow)
      else
        { ps0 with
            progress := codeMeanB env jobs k,
            status := Status.processing,
            started_at := env.time })) ps0.videoId = some (if k = 0 then
        ({ ps0 with progress := (0 : ℚ), status := Status.pending, started_at := env.time } : PSRow)
      else
        { ps0 with
            progress := codeMeanB env jobs k,
            status := Status.processing,
            started_at := env.time }) := findProc_after _ _ _ hproj1 hbase
    have hfront : (db.formats.filter
        (fun f => !(f.videoId == ps0.videoId))).filter
        (fun f => f.videoId == ps0.videoId) = [] :=
      List.filter_eq_nil_iff.mpr (fun a ha => by
        have := (List.mem_filter.mp ha).2
        simp at this
        simp [this])
    by_cases hE : errsB env jobs k = []
    · rw [hE] at hrun'
      simp only [List.isEmpty_nil, if_true] at hrun'
      cases hif : env.iterFormats ps0.videoId with
      | error e =>
        rw [hif] at hrun'
        exact absurd (congrArg TIResult.outcome hrun') (by simp)
      | ok fmts =>
        rw [hif] at hrun'
        dsimp only at hrun'
        rw [hdbif] at hrun'
        rw [hproj1, hproj2, hproj3] at hrun'
        simp only [TIResult.mk.injEq] at hrun'
        obtain ⟨hdb', hevs', -⟩ := hrun'
        refine ⟨?_, ?_, Or.inl ⟨hE, fmts, rfl, ?_, ?_, ?_⟩⟩
        · rw [← hdb']
          simp [saveProc, deleteFormatsDb, foldl_addFormat]
        · rw [← hdb']
          simp [saveProc, deleteFormatsDb, foldl_addFormat]
        · rw [← hevs']
          simp [loopSavesB, List.append_assoc, String.intercalate]
        · rw [← hdb']
          have hmapf : (fmts.map (fun f => (⟨ps0.videoId, f.1, f.2⟩ : FormatRow))).filter
              (fun f => f.videoId == ps0.videoId) =
              fmts.map (fun f => (⟨ps0.videoId, f.1, f.2⟩ : FormatRow)) :=
            List.filter_eq_self.mpr (fun a ha => by
              obtain ⟨f, -, rfl⟩ := List.mem_map.mp ha
              simp)
          unfold formatsOf
          simp [saveProc, deleteFormatsDb, foldl_addFormat, List.filter_append, hfront, hmapf]
        · rw [← hdb']
          have hproc2 : (List.foldl (fun d f => addFormat d ps0.videoId f.1 f.2)
              (deleteFormatsDb (saveProc db (if k = 0 then
                ({ ps0 with progress := (0 : ℚ), status := Status.pending, started_at := env.time } : PSRow)
              else
                { ps0 with
                    progress := codeMeanB env jobs k,
                    status := Status.processing,
                    started_at := env.time })) ps0.videoId) fmts).procStates.find?
              (fun x => x.videoId == ps0.videoId) = some (if k = 0 then
                ({ ps0 with progress := (0 : ℚ), status := Status.pending, started_at := env.time } : PSRow)
              else
                { ps0 with
                    progress := codeMeanB env jobs k,
                    status := Status.processing,
                    started_at := env.time }) := by
            rw [foldl_addFormat]
            show (saveProc db _).procStates.find? _ = _
            exact hmid
          refine (findProc_after _ _ _ rfl ?_).trans rfl
          rw [hproc2]
          rfl
    · have hEe : (errsB env jobs k).isEmpty = false := by
        simpa using hE
      rw [hEe] at hrun'
      simp only [Bool.false_eq_true, if_false] at hrun'
      cases hdel : env.deleteVideo ps0.videoId with
      | error e =>
        rw [hdel] at hrun'
        exact absurd (congrArg TIResult.outcome hrun') (by simp)
      | ok u =>
        rw [hdel] at hrun'
        dsimp only at hrun'
        rw [hdbif] at hrun'
        rw [hproj1, hproj2, hproj3] at hrun'
        simp only [TIResult.mk.injEq] at hrun'
        obtain ⟨hdb', hevs', -⟩ := hrun'
        refine ⟨?_, ?_, Or.inr ⟨hE, by cases u; rfl, ?_, ?_, ?_⟩⟩
        · rw [← hdb']
          simp [saveProc, deleteFormatsDb]
        · rw [← hdb']
          simp [saveProc, deleteFormatsDb]
        · rw [← hevs']
          simp [loopSavesB, List.append_assoc]
        · rw [← hdb']
          unfold formatsOf
          simp [saveProc, deleteFormatsDb, List.filter_append, hfront]
        · rw [← hdb']
          refine (findProc_after _ _ _ rfl ?_).trans rfl
          show ((saveProc db _).procStates.find? _).isSome = true
          rw [show (saveProc db (if k = 0 then
              ({ ps0 with progress := (0 : ℚ), status := Status.pending, started_at := env.time } : PSRow)
            else
              { ps0 with
                  progress := codeMeanB env jobs k,
                  status := Status.processing,
                  started_at := env.time })).procStates.find? (fun x => x.videoId == ps0.videoId) =
            some (if k = 0 then
              ({ ps0 with progress := (0 : ℚ), status := Status.pending, started_at := env.time } : PSRow)
            else
              { ps0 with
                  progress := codeMeanB env jobs k,
                  status := Status.processing,
                  started_at := env.time }) from hmid]
          rfl

theorem listSum_nonneg (l : List ℚ) (h : ∀ x ∈ l, 0 ≤ x) : 0 ≤ l.sum := by
  induction l with
  | nil => simp
  | cons a l ih =>
    rw [List.sum_cons]
    have ha := h a (by simp)
    have hl := ih (fun x hx => h x (by simp [hx]))
    linarith

theorem listSum_le (l : List ℚ) (c : ℚ) (h : ∀ x ∈ l, x ≤ c) :
    l.sum ≤ l.length * c := by
  induction l with
  | nil => simp
  | cons a l ih =>
    rw [List.sum_cons, List.length_cons]
    have ha := h a (by simp)
    have hl := ih (fun x hx => h x (by simp [hx]))
    push_cast
    linarith

theorem listSum_le_sum (l : List Nat) (f g : Nat → ℚ) (h : ∀ x ∈ l, f x ≤ g x) :
    (l.map f).sum ≤ (l.map g).sum := by
  induction l with
  | nil => simp
  | cons a l ih =>
    simp only [List.map_cons, List.sum_cons]
    have ha := h a (by simp)
    have hl := ih (fun x hx => h x (by simp [hx]))
    linarith

theorem jobStateB_bounds (env : TEnv) (jobs : List Nat) (j : Nat)
    (hB : ∀ p h q f, env.checkProgress p h = .ok (q, f) → 0 ≤ q ∧ q ≤ 100) :
    ∀ p, 0 ≤ (jobStateB env jobs j p).1 ∧ (jobStateB env jobs j p).1 ≤ 100 := by
  intro p
  induction p with
  | zero => exact ⟨le_refl 0, by norm_num [jobStateB]⟩
  | succ p ih =>
    show 0 ≤ (jobStep env jobs p j (jobStateB env jobs j p)).1 ∧
      (jobStep env jobs p j (jobStateB env jobs j p)).1 ≤ 100
    unfold jobStep
    cases hs : isRunning (jobStateB env jobs j p).2 with
    | false => simpa [hs] using ih
    | true =>
      cases hc : env.checkProgress p (jobs.getD j 0) with
      | ok qf =>
        obtain ⟨q, fin⟩ := qf
        simpa [hs, hc] using hB p (jobs.getD j 0) q fin hc
      | error e => simpa [hs, hc] using ih

theorem jb_running_report (env : TEnv) (jobs : List Nat) (j p : Nat)
    (hr : (jobStateB env jobs j (p + 1)).2 = JStat.running) :
    env.checkProgress p (jobs.getD j 0) = .ok ((jobStateB env jobs j (p + 1)).1, false) := by
  have hstep : jobStateB env jobs j (p + 1) = jobStep env jobs p j (jobStateB env jobs j p) := rfl
  rw [hstep] at hr ⊢
  rcases hsp : jobStateB env jobs j p with ⟨v, s⟩
  rw [hsp] at hr
  cases s with
  | running =>
    dsimp only [jobStep, isRunning, if_true] at hr ⊢
    cases hc : env.checkProgress p (jobs.getD j 0) with
    | ok qf =>
      obtain ⟨q, fin⟩ := qf
      cases fin with
      | false => simp
      | true =>
        rw [hc] at hr
        simp at hr
    | error e =>
      rw [hc] at hr
      simp at hr
  | done =>
    dsimp only [jobStep, isRunning] at hr
    exact absurd hr (by simp)
  | failedJob =>
    dsimp only [jobStep, isRunning] at hr
    exact absurd hr (by simp)

theorem jobStateB_keep (env : TEnv) (jobs : List Nat) (j p : Nat)
    (hrun : ¬(jobStateB env jobs j p).2 = JStat.running) :
    jobStateB env jobs j (p + 1) = jobStateB env jobs j p := by
  show jobStep env jobs p j (jobStateB env jobs j p) = _
  rcases hsp : jobStateB env jobs j p with ⟨v, s⟩
  rw [hsp] at hrun
  unfold jobStep
  cases s with
  | running => exact absurd rfl hrun
  | done => simp [isRunning]
  | failedJob => simp [isRunning]

theorem jobStateB_mono (env : TEnv) (jobs : List Nat) (j : Nat)
    (hB : ∀ p h q f, env.checkProgress p h = .ok (q, f) → 0 ≤ q ∧ q ≤ 100)
    (hM : ∀ p q f q' f', env.checkProgress p (jobs.getD j 0) = .ok (q, f) →
      env.checkProgress (p + 1) (jobs.getD j 0) = .ok (q', f') → q ≤ q') :
    ∀ p, (jobStateB env jobs j p).1 ≤ (jobStateB env jobs j (p + 1)).1 := by
  intro p
  by_cases hrun : (jobStateB env jobs j p).2 = JStat.running
  · cases p with
    | zero =>
      show (0 : ℚ) ≤ (jobStep env jobs 0 j (jobStateB env jobs j 0)).1
      show (0 : ℚ) ≤ (jobStep env jobs 0 j (0, JStat.running)).1
      unfold jobStep
      dsimp only [isRunning, if_true]
      cases hc : env.checkProgress 0 (jobs.getD j 0) with
      | ok qf =>
        obtain ⟨q, f⟩ := qf
        simpa using (hB 0 (jobs.getD j 0) q f hc).1
      | error e => simp
    | succ p' =>
      have hrep := jb_running_report env jobs j p' hrun
      show (jobStateB env jobs j (p' + 1)).1 ≤
        (jobStep env jobs (p' + 1) j (jobStateB env jobs j (p' + 1))).1
      rcases hsp : jobStateB env jobs j (p' + 1) with ⟨v, s⟩
      rw [hsp] at hrun hrep
      dsimp only at hrun hrep
      subst hrun
      unfold jobStep
      dsimp only [isRunning, if_true]
      cases hc : env.checkProgress (p' + 1) (jobs.getD j 0) with
      | ok qf =>
        obtain ⟨q', f'⟩ := qf
        simpa using hM p' v false q' f' hrep hc
      | error e => simp
  · rw [jobStateB_keep env jobs j p hrun]

theorem codeMeanB_bounds (env : TEnv) (jobs : List Nat) (hn : 0 < jobs.length)
    (hB : ∀ p h q f, env.checkProgress p h = .ok (q, f) → 0 ≤ q ∧ q ≤ 100) (p : Nat) :
    0 ≤ codeMeanB env jobs p ∧ codeMeanB env jobs p ≤ 100 := by
  unfold codeMeanB
  have hnq : (0 : ℚ) < (jobs.length : ℚ) := by exact_mod_cast hn
  constructor
  · apply div_nonneg _ (le_of_lt hnq)
    apply listSum_nonneg
    intro x hx
    obtain ⟨j, hj, rfl⟩ := List.mem_map.mp hx
    exact (jobStateB_bounds env jobs j hB p).1
  · rw [div_le_iff hnq]
    have hlen : ((List.range jobs.length).map
        (fun j => (jobStateB env jobs j p).1)).length = jobs.length := by simp
    have hle := listSum_le ((List.range jobs.length).map
      (fun j => (jobStateB env jobs j p).1)) 100 (fun x hx => by
        obtain ⟨j, hj, rfl⟩ := List.mem_map.mp hx
        exact (jobStateB_bounds env jobs j hB p).2)
    rw [hlen] at hle
    linarith

theorem codeMeanB_mono (env : TEnv) (jobs : List Nat) (hn : 0 < jobs.length)
    (hB : ∀ p h q f, env.checkProgress p h = .ok (q, f) → 0 ≤ q ∧ q ≤ 100)
    (hM : ∀ j, j < jobs.length → ∀ p q f q' f',
      env.checkProgress p (jobs.getD j 0) = .ok (q, f) →
      env.checkProgress (p + 1) (jobs.getD j 0) = .ok (q', f') → q ≤ q') (p : Nat) :
    codeMeanB env jobs p ≤ codeMeanB env jobs (p + 1) := by
  unfold codeMeanB
  have hnq : (0 : ℚ) < (jobs.length : ℚ) := by exact_mod_cast hn
  refine (div_le_div_right hnq).mpr ?_
  apply listSum_le_sum
  intro j hj
  exact jobStateB_mono env jobs j hB (hM j (List.mem_range.mp hj)) p

theorem C2_terminal_state (env : TEnv) (fuel : Nat) (db : DB) (id : String)
    (v0 : Video) (ps0 : PSRow) (jobs : List Nat) (db' : DB) (evs : List Event)
    (hv : findVideo db id = some v0)
    (hp : findProc db id = some ps0)
    (hs : env.startTranscoding id = .ok jobs)
    (hnu : noUnexpected env jobs)
    (hrun : transcodeInner env fuel db id = ⟨db', evs, some (.ok ())⟩) :
    ∃ k,
      ((errsB env jobs k = [] ∧
        ∃ fmts, env.iterFormats id = .ok fmts ∧
          findProc db' id = some ⟨id, Status.success, lastProgB env jobs k, "", env.time⟩ ∧
          formatsOf db' id = fmts.map (fun f => ⟨id, f.1, f.2⟩) ∧
          evs.count (Event.backendDeleteVideo id) = 0 ∧
          evs = Event.saveState Status.pending 0 ps0.message ::
            (loopSavesB env jobs ps0.message k ++ [Event.deleteFormats id] ++
             fmts.map (fun f => Event.createFormat id f.1 f.2) ++
             [Event.saveState Status.success (lastProgB env jobs k) ""])) ∨
       (errsB env jobs k ≠ [] ∧
          findProc db' id = some ⟨id, Status.failed, lastProgB env jobs k,
            String.intercalate "\n" (errsB env jobs k), env.time⟩ ∧
          formatsOf db' id = [] ∧
          evs.count (Event.backendDeleteVideo id) = 1 ∧
          evs = Event.saveState Status.pending 0 ps0.message ::
            (loopSavesB env jobs ps0.message k ++
             [Event.deleteFormats id,
              Event.saveState Status.failed (lastProgB env jobs k)
                (String.intercalate "\n" (errsB env jobs k)),
              Event.backendDeleteVideo id]))) := by
  obtain ⟨k, hkn, hres, hvid, hurl, hbr⟩ :=
    transcodeInner_ok_spec env fuel db id v0 ps0 jobs db' evs hv hp hs hnu hrun
  have hl0 : (loopSavesB env jobs ps0.message k).count (Event.backendDeleteVideo id) = 0 := by
    rw [List.count_eq_zero]
    simp [loopSavesB]
  refine ⟨k, ?_⟩
  rcases hbr with ⟨hE, fmts, hif, hevs, hfmt, hproc⟩ | ⟨hE, hdel, hevs, hfmt, hproc⟩
  · refine Or.inl ⟨hE, fmts, hif, hproc, hfmt, ?_, hevs⟩
    rw [hevs, List.count_cons]
    simp [List.count_append, hl0, List.count_eq_zero]
  · refine Or.inr ⟨hE, hproc, hfmt, ?_, hevs⟩
    rw [hevs, List.count_cons]
    simp [List.count_append, hl0, List.count_eq_zero, List.count_cons]

theorem C2_witness :
    ∃ k,
      ((errsB envAllOk [0] k = [] ∧
        ∃ fmts, envAllOk.iterFormats "v1" = .ok fmts ∧
          findProc (transcodeInner envAllOk 2 dbOne "v1").db "v1" =
            some ⟨"v1", Status.success, lastProgB envAllOk [0] k, "", envAllOk.time⟩ ∧
          formatsOf (transcodeInner envAllOk 2 dbOne "v1").db "v1" =
            fmts.map (fun f => ⟨"v1", f.1, f.2⟩) ∧
          (transcodeInner envAllOk 2 dbOne "v1").evs.count (Event.backendDeleteVideo "v1") = 0 ∧
          (transcodeInner envAllOk 2 dbOne "v1").evs =
            Event.saveState Status.pending 0 "" ::
            (loopSavesB envAllOk [0] "" k ++ [Event.deleteFormats "v1"] ++
             fmts.map (fun f => Event.createFormat "v1" f.1 f.2) ++
             [Event.saveState Status.success (lastProgB envAllOk [0] k) ""])) ∨
       (errsB envAllOk [0] k ≠ [] ∧
          findProc (transcodeInner envAllOk 2 dbOne "v1").db "v1" =
            some ⟨"v1", Status.failed, lastProgB envAllOk [0] k,
              String.intercalate "\n" (errsB envAllOk [0] k), envAllOk.time⟩ ∧
          formatsOf (transcodeInner envAllOk 2 dbOne "v1").db "v1" = [] ∧
          (transcodeInner envAllOk 2 dbOne "v1").evs.count (Event.backendDeleteVideo "v1") = 1 ∧
          (transcodeInner envAllOk 2 dbOne "v1").evs =
            Event.saveState Status.pending 0 "" ::
            (loopSavesB envAllOk [0] "" k ++
             [Event.deleteFormats "v1",
              Event.saveState Status.failed (lastProgB envAllOk [0] k)
                (String.intercalate "\n" (errsB envAllOk [0] k)),
              Event.backendDeleteVideo "v1"]))) := by
  have hout : (transcodeInner envAllOk 2 dbOne "v1").outcome = some (.ok ()) := by
    norm_num [transcodeInner, transLoop, pollPass, pollJob, envAllOk, dbOne, findVideo,
      findProc, saveProc, deleteFormatsDb, addFormat, List.range, List.range.loop,
      List.foldlM, String.intercalate, List.intercalate, List.intersperse]
  exact C2_terminal_state envAllOk 2 dbOne "v1" ⟨"v1", "t", 7⟩ ⟨"v1", Status.pending, 0, "", 0⟩
    [0] (transcodeInner envAllOk 2 dbOne "v1").db (transcodeInner envAllOk 2 dbOne "v1").evs
    rfl rfl rfl (fun _ _ _ => trivial) (by rw [← hout])

theorem savesOf_append (l1 l2 : List Event) :
    savesOf (l1 ++ l2) = savesOf l1 ++ savesOf l2 := by
  simp [savesOf, List.filterMap_append]

theorem savesOf_cons_save (s : Status) (q : ℚ) (m : String) (l : List Event) :
    savesOf (Event.saveState s q m :: l) = (s, q) :: savesOf l := by
  simp [savesOf, List.filterMap_cons]

theorem savesOf_loopSaves (env : TEnv) (jobs : List Nat) (msg : String) (k : Nat) :
    savesOf (loopSavesB env jobs msg k) =
      (List.range k).map (fun i => (Status.processing, codeMeanB env jobs (i + 1))) := by
  induction k with
  | zero => rfl
  | succ n ih =>
    unfold loopSavesB at ih ⊢
    rw [List.range_succ, List.map_append, savesOf_append, ih]
    simp [savesOf, List.filterMap_cons]

theorem savesOf_creates (id : String) (fmts : List (String × ℚ)) :
    savesOf (fmts.map (fun f => Event.createFormat id f.1 f.2)) = [] := by
  induction fmts with
  | nil => rfl
  | cons a t ih => simpa [savesOf, List.filterMap_cons] using ih

theorem persistedProgress_eq (evs : List Event) :
    persistedProgress evs = (savesOf evs).map Prod.snd := by
  induction evs with
  | nil => rfl
  | cons e t ih => cases e <;> simpa [persistedProgress, savesOf, List.filterMap_cons] using ih

theorem savesOf_shape (env : TEnv) (fuel : Nat) (db : DB) (id : String)
    (v0 : Video) (ps0 : PSRow) (jobs : List Nat) (db' : DB) (evs : List Event)
    (hv : findVideo db id = some v0)
    (hp : findProc db id = some ps0)
    (hs : env.startTranscoding id = .ok jobs)
    (hnu : noUnexpected env jobs)
    (hrun : transcodeInner env fuel db id = ⟨db', evs, some (.ok ())⟩) :
    ∃ k s, (k = 0 ∨ 0 < jobs.length) ∧
      (s = Status.success ∨ s = Status.failed) ∧
      savesOf evs = (Status.pending, (0 : ℚ)) ::
        ((List.range k).map (fun i => (Status.processing, codeMeanB env jobs (i + 1))) ++
         [(s, lastProgB env jobs k)]) := by
  obtain ⟨k, hkn, hres, hvid, hurl, hbr⟩ :=
    transcodeInner_ok_spec env fuel db id v0 ps0 jobs db' evs hv hp hs hnu hrun
  rcases hbr with ⟨hE, fmts, hif, hevs, hfmt, hproc⟩ | ⟨hE, hdel, hevs, hfmt, hproc⟩
  · refine ⟨k, Status.success, hkn, Or.inl rfl, ?_⟩
    rw [hevs, savesOf_cons_save, savesOf_append, savesOf_append, savesOf_append,
      savesOf_loopSaves, savesOf_creates]
    simp [savesOf, List.filterMap_cons]
  · refine ⟨k, Status.failed, hkn, Or.inr rfl, ?_⟩
    rw [hevs, savesOf_cons_save, savesOf_append, savesOf_loopSaves]
    simp [savesOf, List.filterMap_cons]

/-- C10: a failed transcoding attempt deletes every `VideoFormat` row of the
video and invokes the backend asset deletion exactly once, yet the final store
still holds the original `Video` row and a `ProcessingState` row for the id
with status failed and the joined failure messages; `delete_video` itself
performs only the backend call and touches no database row. -/
theorem C10_failed_attempt_frame (env : TEnv) (fuel : Nat) (db : DB) (id : String)
    (v0 : Video) (ps0 : PSRow) (jobs : List Nat) (db' : DB) (evs : List Event)
    (hv : findVideo db id = some v0)
    (hp : findProc db id = some ps0)
    (hs : env.startTranscoding id = .ok jobs)
    (hnu : noUnexpected env jobs)
    (hrun : transcodeInner env fuel db id = ⟨db', evs, some (.ok ())⟩)
    (hfail : ∃ q m t, findProc db' id = some ⟨id, Status.failed, q, m, t⟩) :
    delete_video_task db id = (db, [Event.backendDeleteVideo id]) ∧
    db'.videos = db.videos ∧
    findVideo db' id = some v0 ∧
    formatsOf db' id = [] ∧
    evs.count (Event.backendDeleteVideo id) = 1 ∧
    ∃ k, errsB env jobs k ≠ [] ∧
      findProc db' id = some ⟨id, Status.failed, lastProgB env jobs k,
        String.intercalate "\n" (errsB env jobs k), env.time⟩ := by
  obtain ⟨k, hkn, hres, hvid, hurl, hbr⟩ :=
    transcodeInner_ok_spec env fuel db id v0 ps0 jobs db' evs hv hp hs hnu hrun
  obtain ⟨q, m, t, hq⟩ := hfail
  refine ⟨rfl, hvid, ?_, ?_⟩
  · unfold findVideo at hv ⊢
    rw [hvid]
    exact hv
  rcases hbr with ⟨hE, fmts, hif, hevs, hfmt, hproc⟩ | ⟨hE, hdel, hevs, hfmt, hproc⟩
  · rw [hproc] at hq
    simp at hq
  · have hl0 : (loopSavesB env jobs ps0.message k).count (Event.backendDeleteVideo id) = 0 := by
      rw [List.count_eq_zero]
      simp [loopSavesB]
    refine ⟨hfmt, ?_, k, hE, hproc⟩
    rw [hevs, List.count_cons]
    simp [List.count_append, hl0, List.count_eq_zero, List.count_cons]

theorem C10_witness :
    delete_video_task dbOne "v1" = (dbOne, [Event.backendDeleteVideo "v1"]) ∧
    (transcodeInner envOneFail 2 dbOne "v1").db.videos = dbOne.videos ∧
    findVideo (transcodeInner envOneFail 2 dbOne "v1").db "v1" = some ⟨"v1", "t", 7⟩ ∧
    formatsOf (transcodeInner envOneFail 2 dbOne "v1").db "v1" = [] ∧
    (transcodeInner envOneFail 2 dbOne "v1").evs.count (Event.backendDeleteVideo "v1") = 1 ∧
    ∃ k, errsB envOneFail [0] k ≠ [] ∧
      findProc (transcodeInner envOneFail 2 dbOne "v1").db "v1" =
        some ⟨"v1", Status.failed, lastProgB envOneFail [0] k,
          String.intercalate "\n" (errsB envOneFail [0] k), envOneFail.time⟩ := by
  have hout : (transcodeInner envOneFail 2 dbOne "v1").outcome = some (.ok ()) := by
    norm_num [transcodeInner, transLoop, pollPass, pollJob, envOneFail, dbOne, findVideo,
      findProc, saveProc, deleteFormatsDb, addFormat, List.range, List.range.loop,
      List.foldlM, String.intercalate, String.intercalate.go, List.intercalate,
      List.intersperse]
  have hfp : findProc (transcodeInner envOneFail 2 dbOne "v1").db "v1" =
      some ⟨"v1", Status.failed, 0, "codec error", 5⟩ := by
    norm_num [transcodeInner, transLoop, pollPass, pollJob, envOneFail, dbOne, findVideo,
      findProc, saveProc, deleteFormatsDb, addFormat, List.range, List.range.loop,
      List.foldlM, String.intercalate, String.intercalate.go, List.intercalate,
      List.intersperse]
  exact C10_failed_attempt_frame envOneFail 2 dbOne "v1" ⟨"v1", "t", 7⟩
    ⟨"v1", Status.pending, 0, "", 0⟩ [0]
    (transcodeInner envOneFail 2 dbOne "v1").db (transcodeInner envOneFail 2 dbOne "v1").evs
    rfl rfl rfl (fun _ _ _ => trivial) (by rw [← hout]) ⟨0, "codec error", 5, hfp⟩

/-- C5 counterexample: with a single job whose backend report is `(50,
finished)` on the first pass, the per-pass snapshot persists progress 50 —
the value reported at resolution — while the claim's aggregate, in which a
success-resolved job contributes 100, says it should be 100. -/
theorem C5_counterexample : ¬ claimC5At envFinishAt50 2 dbOne "v1" [0] := by
  intro h
  have hsnap : procSnaps (transcodeInner envFinishAt50 2 dbOne "v1").evs = [50] := by
    norm_num [procSnaps, transcodeInner, transLoop, pollPass, pollJob, envFinishAt50, dbOne,
      findVideo, findProc, saveProc, deleteFormatsDb, addFormat, List.range, List.range.loop,
      List.foldlM, String.intercalate, List.intercalate, List.intersperse]
    decide
  have h50 := h rfl 0 50 (by simp [hsnap])
  have hspec : specMeanSuccess100 envFinishAt50 [0] 0 = 100 := by
    norm_num [specMeanSuccess100, jobStateB, jobStep, envFinishAt50, isRunning,
      List.range, List.range.loop, List.getD]
  rw [hspec] at h50
  norm_num at h50

/-- C5 (amended): the persisted saves of a normally returning attempt are the
initial pending save at progress 0, then after each full pass exactly one save
with status processing whose progress is the arithmetic mean of the jobs'
last-known reported values — a job that resolved on a finished report
contributes the progress value of that report, not necessarily 100 — followed
by one terminal success-or-failed save at the loop's last mean. -/
theorem C5_pass_snapshots (env : TEnv) (fuel : Nat) (db : DB) (id : String)
    (v0 : Video) (ps0 : PSRow) (jobs : List Nat) (db' : DB) (evs : List Event)
    (hv : findVideo db id = some v0)
    (hp : findProc db id = some ps0)
    (hs : env.startTranscoding id = .ok jobs)
    (hnu : noUnexpected env jobs)
    (hrun : transcodeInner env fuel db id = ⟨db', evs, some (.ok ())⟩) :
    ∃ k s, (s = Status.success ∨ s = Status.failed) ∧
      savesOf evs = (Status.pending, (0 : ℚ)) ::
        ((List.range k).map (fun i => (Status.processing, codeMeanB env jobs (i + 1))) ++
         [(s, lastProgB env jobs k)]) := by
  obtain ⟨k, s, hkn, hss, hsh⟩ :=
    savesOf_shape env fuel db id v0 ps0 jobs db' evs hv hp hs hnu hrun
  exact ⟨k, s, hss, hsh⟩

theorem C5_witness :
    ∃ k s, (s = Status.success ∨ s = Status.failed) ∧
      savesOf (transcodeInner envAllOk 2 dbOne "v1").evs =
        (Status.pending, (0 : ℚ)) ::
        ((List.range k).map (fun i => (Status.processing, codeMeanB envAllOk [0] (i + 1))) ++
         [(s, lastProgB envAllOk [0] k)]) := by
  have hout : (transcodeInner envAllOk 2 dbOne "v1").outcome = some (.ok ()) := by
    norm_num [transcodeInner, transLoop, pollPass, pollJob, envAllOk, dbOne, findVideo,
      findProc, saveProc, deleteFormatsDb, addFormat, List.range, List.range.loop,
      List.foldlM, String.intercalate, List.intercalate, List.intersperse]
  exact C5_pass_snapshots envAllOk 2 dbOne "v1" ⟨"v1", "t", 7⟩ ⟨"v1", Status.pending, 0, "", 0⟩
    [0] (transcodeInner envAllOk 2 dbOne "v1").db (transcodeInner envAllOk 2 dbOne "v1").evs
    rfl rfl rfl (fun _ _ _ => trivial) (by rw [← hout])

/-- C6 counterexample: with a single job reported at `(100, unfinished)` on the
first pass and `(0, finished)` on the second — every reported value in
[0,100] — the persisted progress sequence is `0, 100, 0, 0`, which is not
monotonically non-decreasing. -/
theorem C6_counterexample : ¬ claimC6At envDecreasing 3 dbOne "v1" := by
  intro h
  have hB : ∀ p hh q f, envDecreasing.checkProgress p hh = .ok (q, f) → 0 ≤ q ∧ q ≤ 100 := by
    intro p hh q f hc
    unfold envDecreasing at hc
    dsimp only at hc
    split at hc <;>
    · injection hc with hpair
      injection hpair with h1 h2
      subst h1
      norm_num
  have hchain := (h hB).2
  have hpp : persistedProgress (transcodeInner envDecreasing 3 dbOne "v1").evs =
      [0, 100, 0, 0] := by
    norm_num [persistedProgress, transcodeInner, transLoop, pollPass, pollJob, envDecreasing,
      dbOne, findVideo, findProc, saveProc, deleteFormatsDb, addFormat, List.range,
      List.range.loop, List.foldlM, String.intercalate, List.intercalate, List.intersperse]
    decide
  rw [hpp] at hchain
  norm_num [List.chain'_cons] at hchain

/-- C6 (amended): when every progress value reported by the backend lies in
[0,100], every persisted progress value of a normally returning attempt lies in
[0,100]; the persisted sequence is monotonically non-decreasing provided each
job's successive reports are themselves non-decreasing — without that extra
hypothesis monotonicity fails (see the counterexample with a decreasing
report). -/
theorem C6_bounds_and_mono (env : TEnv) (fuel : Nat) (db : DB) (id : String)
    (v0 : Video) (ps0 : PSRow) (jobs : List Nat) (db' : DB) (evs : List Event)
    (hv : findVideo db id = some v0)
    (hp : findProc db id = some ps0)
    (hs : env.startTranscoding id = .ok jobs)
    (hnu : noUnexpected env jobs)
    (hrun : transcodeInner env fuel db id = ⟨db', evs, some (.ok ())⟩)
    (hB : ∀ p h q f, env.checkProgress p h = .ok (q, f) → 0 ≤ q ∧ q ≤ 100) :
    (∀ q ∈ persistedProgress evs, 0 ≤ q ∧ q ≤ 100) ∧
    ((∀ j, j < jobs.length → ∀ p q f q' f',
        env.checkProgress p (jobs.getD j 0) = .ok (q, f) →
        env.checkProgress (p + 1) (jobs.getD j 0) = .ok (q', f') → q ≤ q') →
      List.Chain' (· ≤ ·) (persistedProgress evs)) := by
  obtain ⟨k, s, hkn, hss, hsh⟩ :=
    savesOf_shape env fuel db id v0 ps0 jobs db' evs hv hp hs hnu hrun
  have hpp : persistedProgress evs =
      0 :: ((List.range k).map (fun i => codeMeanB env jobs (i + 1)) ++
        [lastProgB env jobs k]) := by
    rw [persistedProgress_eq, hsh]
    simp [List.map_append, List.map_map, Function.comp]
  constructor
  · intro q hq
    rw [hpp] at hq
    rcases List.mem_cons.mp hq with rfl | hq2
    · norm_num
    rcases List.mem_append.mp hq2 with hq3 | hq4
    · obtain ⟨i, hi, rfl⟩ := List.mem_map.mp hq3
      have hn : 0 < jobs.length := by
        rcases hkn with hk0 | hn
        · subst hk0
          simp at hi
        · exact hn
      exact codeMeanB_bounds env jobs hn hB (i + 1)
    · have hq5 : q = lastProgB env jobs k := by simpa using hq4
      subst hq5
      rcases hkn with hk0 | hn
      · subst hk0
        norm_num [lastProgB]
      · unfold lastProgB
        by_cases hk : k = 0
        · norm_num [hk]
        · rw [if_neg hk]
          exact codeMeanB_bounds env jobs hn hB k
  · intro hM
    rw [hpp]
    rcases hkn with hk0 | hn
    · subst hk0
      norm_num [lastProgB, List.chain'_cons]
    · have hg : (List.range (k + 2)).map (fun i =>
            if i = 0 then (0 : ℚ) else if i ≤ k then codeMeanB env jobs i
            else lastProgB env jobs k) =
          (0 : ℚ) :: ((List.range k).map (fun i => codeMeanB env jobs (i + 1)) ++
            [lastProgB env jobs k]) := by
        have htail : List.map ((fun i =>
              if i = 0 then (0 : ℚ) else if i ≤ k then codeMeanB env jobs i
              else lastProgB env jobs k) ∘ Nat.succ) (List.range k) =
            List.map (fun i => codeMeanB env jobs (i + 1)) (List.range k) := by
          apply List.map_congr_left
          intro i hi
          have hik : i < k := List.mem_range.mp hi
          simp [Function.comp, Nat.succ_ne_zero, Nat.succ_le_of_lt hik]
        have hlast : (if k + 1 = 0 then (0 : ℚ) else if k + 1 ≤ k then codeMeanB env jobs (k + 1)
            else lastProgB env jobs k) = lastProgB env jobs k := by
          rw [if_neg (by omega : ¬ k + 1 = 0), if_neg (by omega : ¬ k + 1 ≤ k)]
        rw [List.range_succ, List.map_append, List.range_succ_eq_map, List.map_cons,
          List.map_map, List.map_cons, List.map_nil, htail, hlast]
        norm_num
      rw [← hg, List.chain'_map]
      apply (List.chain'_range_succ _ (k + 1)).mpr
      intro m hm
      show (if m = 0 then (0 : ℚ) else if m ≤ k then codeMeanB env jobs m
            else lastProgB env jobs k) ≤
        (if m + 1 = 0 then (0 : ℚ) else if m + 1 ≤ k then codeMeanB env jobs (m + 1)
            else lastProgB env jobs k)
      rw [if_neg (by omega : ¬ m + 1 = 0)]
      by_cases hm0 : m = 0
      · subst hm0
        rw [if_pos rfl]
        by_cases hk1 : 0 + 1 ≤ k
        · rw [if_pos hk1]
          exact (codeMeanB_bounds env jobs hn hB (0 + 1)).1
        · rw [if_neg hk1]
          have hk0 : k = 0 := by omega
          subst hk0
          norm_num [lastProgB]
      · rw [if_neg hm0]
        have hmk : m ≤ k := by omega
        rw [if_pos hmk]
        by_cases hk2 : m + 1 ≤ k
        · rw [if_pos hk2]
          exact codeMeanB_mono env jobs hn hB hM m
        · rw [if_neg hk2]
          have hkm : k = m := by omega
          subst hkm
          unfold lastProgB
          rw [if_neg hm0]

theorem C6_witness :
    (∀ q ∈ persistedProgress (transcodeInner envAllOk 2 dbOne "v1").evs, 0 ≤ q ∧ q ≤ 100) ∧
    ((∀ j, j < ([0] : List Nat).length → ∀ p q f q' f',
        envAllOk.checkProgress p (([0] : List Nat).getD j 0) = .ok (q, f) →
        envAllOk.checkProgress (p + 1) (([0] : List Nat).getD j 0) = .ok (q', f') → q ≤ q') →
      List.Chain' (· ≤ ·) (persistedProgress (transcodeInner envAllOk 2 dbOne "v1").evs)) := by
  have hout : (transcodeInner envAllOk 2 dbOne "v1").outcome = some (.ok ()) := by
    norm_num [transcodeInner, transLoop, pollPass, pollJob, envAllOk, dbOne, findVideo,
      findProc, saveProc, deleteFormatsDb, addFormat, List.range, List.range.loop,
      List.foldlM, String.intercalate, List.intercalate, List.intersperse]
  have hB : ∀ p h q f, envAllOk.checkProgress p h = .ok (q, f) → 0 ≤ q ∧ q ≤ 100 := by
    intro p h q f hc
    unfold envAllOk at hc
    dsimp only at hc
    injection hc with hpair
    injection hpair with h1 h2
    subst h1
    norm_num
  exact C6_bounds_and_mono envAllOk 2 dbOne "v1" ⟨"v1", "t", 7⟩ ⟨"v1", Status.pending, 0, "", 0⟩
    [0] (transcodeInner envAllOk 2 dbOne "v1").db (transcodeInner envAllOk 2 dbOne "v1").evs
    rfl rfl rfl (fun _ _ _ => trivial) (by rw [← hout]) hB

/-- C3: when the lock is free and the inner attempt raises `e`, the task
bulk-updates the video's processing state to status failed with message the
newline-join of the exception's arguments, re-raises the same `e`, and exits
with the lock released; moreover every returning run (normal or exceptional)
from a lock-free start exits with the lock released. -/
theorem C3_exception_recorded (env : TEnv) (fuel : Nat) (sys : Sys) (id : String)
    (e : PyExc) (db' : DB) (evs : List Event)
    (hl : transcodeLockName id ∉ sys.locks)
    (hrun : transcodeInner env fuel sys.db id = ⟨db', evs, some (.error e)⟩) :
    transcode_video env fuel sys id =
      ⟨⟨failProc db' id (String.intercalate "\n" e.args),
        (transcodeLockName id :: sys.locks).erase (transcodeLockName id)⟩,
       evs, some (.error e)⟩ ∧
    transcodeLockName id ∉ (transcode_video env fuel sys id).sys.locks ∧
    (∀ sys2 : Sys, transcodeLockName id ∉ sys2.locks →
      ∀ r, (transcode_video env fuel sys2 id).outcome = some r →
        transcodeLockName id ∉ (transcode_video env fuel sys2 id).sys.locks) := by
  have hstep : transcode_video env fuel sys id =
      ⟨⟨failProc db' id (String.intercalate "\n" e.args),
        (transcodeLockName id :: sys.locks).erase (transcodeLockName id)⟩,
       evs, some (.error e)⟩ := by
    unfold transcode_video
    rw [if_neg hl, hrun]
  refine ⟨hstep, ?_, ?_⟩
  · rw [hstep]
    dsimp only
    rw [List.erase_cons_head]
    exact hl
  · intro sys2 hl2 r hr
    rcases hri : transcodeInner env fuel sys2.db id with ⟨db2, evs2, out2⟩
    cases out2 with
    | none =>
      unfold transcode_video at hr
      rw [if_neg hl2, hri] at hr
      simp at hr
    | some r2 =>
      cases r2 with
      | ok u =>
        unfold transcode_video
        rw [if_neg hl2, hri]
        dsimp only
        rw [List.erase_cons_head]
        exact hl2
      | error e2 =>
        unfold transcode_video
        rw [if_neg hl2, hri]
        dsimp only
        rw [List.erase_cons_head]
        exact hl2

theorem C3_witness :
    transcode_video envBoom 2 ⟨dbOne, []⟩ "v1" =
      ⟨⟨failProc (transcodeInner envBoom 2 dbOne "v1").db "v1"
          (String.intercalate "\n" (PyExc.generic ["boom", "bang"]).args),
        (transcodeLockName "v1" :: ([] : List String)).erase (transcodeLockName "v1")⟩,
       (transcodeInner envBoom 2 dbOne "v1").evs,
       some (.error (.generic ["boom", "bang"]))⟩ ∧
    transcodeLockName "v1" ∉ (transcode_video envBoom 2 ⟨dbOne, []⟩ "v1").sys.locks ∧
    (∀ sys2 : Sys, transcodeLockName "v1" ∉ sys2.locks →
      ∀ r, (transcode_video envBoom 2 sys2 "v1").outcome = some r →
        transcodeLockName "v1" ∉ (transcode_video envBoom 2 sys2 "v1").sys.locks) := by
  have h2 : (transcodeInner envBoom 2 dbOne "v1").outcome =
      some (.error (.generic ["boom", "bang"])) := by
    norm_num [transcodeInner, transLoop, pollPass, pollJob, envBoom, dbOne, findVideo,
      findProc, saveProc, deleteFormatsDb, addFormat, List.range, List.range.loop,
      List.foldlM, String.intercalate, List.intercalate, List.intersperse]
  exact C3_exception_recorded envBoom 2 ⟨dbOne, []⟩ "v1" (.generic ["boom", "bang"])
    (transcodeInner envBoom 2 dbOne "v1").db (transcodeInner envBoom 2 dbOne "v1").evs
    (by simp) (by rw [← h2])

/-- C4: when the transcode lock for the id is already held, the task returns
immediately with no store change, no event, and a normal return; and from any
lock-free start the task's event trace is exactly the inner state machine's
trace, so of two concurrent calls only the lock-winning one performs the
state machine. -/
theorem C4_lock_held_noop (env : TEnv) (fuel : Nat) (sys : Sys) (id : String)
    (hheld : transcodeLockName id ∈ sys.locks) :
    transcode_video env fuel sys id = ⟨sys, [], some (.ok ())⟩ ∧
    (∀ sys2 : Sys, transcodeLockName id ∉ sys2.locks →
      (transcode_video env fuel sys2 id).evs = (transcodeInner env fuel sys2.db id).evs) := by
  constructor
  · unfold transcode_video
    rw [if_pos hheld]
  · intro sys2 hfree
    unfold transcode_video
    rw [if_neg hfree]
    rcases hri : transcodeInner env fuel sys2.db id with ⟨db2, evs2, out2⟩
    cases out2 with
    | none => rfl
    | some r2 =>
      cases r2 with
      | ok u => rfl
      | error e2 => rfl

theorem C4_witness :
    transcode_video envAllOk 2 ⟨dbOne, [transcodeLockName "v1"]⟩ "v1" =
      ⟨⟨dbOne, [transcodeLockName "v1"]⟩, [], some (.ok ())⟩ ∧
    (∀ sys2 : Sys, transcodeLockName "v1" ∉ sys2.locks →
      (transcode_video envAllOk 2 sys2 "v1").evs =
        (transcodeInner envAllOk 2 sys2.db "v1").evs) :=
  C4_lock_held_noop envAllOk 2 ⟨dbOne, [transcodeLockName "v1"]⟩ "v1" (by simp)
